import Mathlib

/-!
Shallow embedding of the go-collide 2D collision-detection library
(packages `collide`: math.go, shape.go, simplex.go, collision.go, toi.go),
with machine floating-point numbers modelled as real numbers.

Every definition mirrors the corresponding Go function; comments point at
the source function each Lean definition embeds.  Go slice indexing is
total here (`List.getD` with a zero default) where the Go code would panic;
such spots are unreachable in the verified flows and are marked below.
-/

set_option maxHeartbeats 1000000
set_option maxRecDepth 4000

namespace collide

/-- Point mirrors `collide.Point` (math.go): an X, Y coordinate pair. -/
structure Point where
  X : ℝ
  Y : ℝ

/-- Add mirrors `Point.Add` (math.go): the vector p+q. -/
noncomputable def Point.Add (p q : Point) : Point := ⟨p.X + q.X, p.Y + q.Y⟩

/-- Sub mirrors `Point.Sub` (math.go): the vector p-q. -/
noncomputable def Point.Sub (p q : Point) : Point := ⟨p.X - q.X, p.Y - q.Y⟩

/-- Mul mirrors `Point.Mul` (math.go): the vector p*k. -/
noncomputable def Point.Mul (p : Point) (k : ℝ) : Point := ⟨p.X * k, p.Y * k⟩

/-- Div mirrors `Point.Div` (math.go): the vector p/k. -/
noncomputable def Point.Div (p : Point) (k : ℝ) : Point := ⟨p.X / k, p.Y / k⟩

/-- Neg mirrors `Point.Neg` (math.go): the vector -p. -/
noncomputable def Point.Neg (p : Point) : Point := ⟨-p.X, -p.Y⟩

/-- Length mirrors `Point.Length` (math.go): `math.Sqrt(x*x + y*y)`. -/
noncomputable def Point.Length (p : Point) : ℝ := Real.sqrt (p.X * p.X + p.Y * p.Y)

/-- LengthSquared mirrors `Point.LengthSquared` (math.go). -/
noncomputable def Point.LengthSquared (p : Point) : ℝ := p.X * p.X + p.Y * p.Y

/-- Normalize mirrors `Point.Normalize` (math.go): p unchanged when its
length is zero, p / |p| otherwise. -/
noncomputable def Point.Normalize (p : Point) : Point :=
  let l := p.Length
  if l = 0 then p else p.Div l

/-- Dot mirrors `collide.Dot` (math.go). -/
noncomputable def Dot (p q : Point) : ℝ := p.X * q.X + p.Y * q.Y

/-- Cross mirrors `collide.Cross` (math.go): the 2D scalar cross product. -/
noncomputable def Cross (p q : Point) : ℝ := p.X * q.Y - p.Y * q.X

/-- CrossPS mirrors `collide.CrossPS` (math.go): `(s*p.y, -s*p.x)`. -/
noncomputable def CrossPS (p : Point) (s : ℝ) : Point := ⟨s * p.Y, -s * p.X⟩

/-- CrossSP mirrors `collide.CrossSP` (math.go): `(-s*p.y, s*p.x)`. -/
noncomputable def CrossSP (s : ℝ) (p : Point) : Point := ⟨-s * p.Y, s * p.X⟩

/-- Rotation mirrors `collide.Rotation` (math.go): a stored sin/cos pair. -/
structure Rotation where
  Sin : ℝ
  Cos : ℝ

/-- NewRotation mirrors `collide.NewRotation` (math.go). -/
noncomputable def NewRotation (theta : ℝ) : Rotation := ⟨Real.sin theta, Real.cos theta⟩

/-- Mul mirrors `Rotation.Mul` (math.go): rotate p by the rotation. -/
noncomputable def Rotation.Mul (r : Rotation) (p : Point) : Point :=
  ⟨p.X * r.Cos - p.Y * r.Sin, p.X * r.Sin + p.Y * r.Cos⟩

/-- MulT mirrors `Rotation.MulT` (math.go): rotate p by the inverse. -/
noncomputable def Rotation.MulT (r : Rotation) (p : Point) : Point :=
  ⟨p.X * r.Cos + p.Y * r.Sin, p.Y * r.Cos - p.X * r.Sin⟩

/-- Transform mirrors `collide.Transform` (math.go): translation + rotation. -/
structure Transform where
  Position : Point
  Rot : Rotation

/-- NewTransform mirrors `collide.NewTransform` (math.go). -/
noncomputable def NewTransform (position : Point) (rotation : ℝ) : Transform :=
  ⟨position, NewRotation rotation⟩

/-- Mul mirrors `Transform.Mul` (math.go): `rotation·p + position`. -/
noncomputable def Transform.Mul (t : Transform) (p : Point) : Point :=
  (t.Rot.Mul p).Add t.Position

/-- MulT mirrors `Transform.MulT` (math.go): the inverse transformation. -/
noncomputable def Transform.MulT (t : Transform) (p : Point) : Point :=
  t.Rot.MulT (p.Sub t.Position)

/-- Sweep mirrors `collide.Sweep` (math.go): linear interpolation between
two positions and two rotation angles. -/
structure Sweep where
  P0 : Point
  P1 : Point
  R0 : ℝ
  R1 : ℝ

/-- GetTransform mirrors `Sweep.GetTransform` (math.go). -/
noncomputable def Sweep.GetTransform (s : Sweep) (t : ℝ) : Transform :=
  NewTransform ((s.P0.Mul (1 - t)).Add (s.P1.Mul t)) (s.R0 * (1 - t) + s.R1 * t)

/-- Circle mirrors `collide.Circle` (shape.go). -/
structure Circle where
  Center : Point
  Radius : ℝ

/-- Polygon mirrors `collide.Polygon` (shape.go). -/
structure Polygon where
  Points : List Point
  Normals : List Point

/-- Loop body of `NewPolygon` (shape.go): edge normal of edge i, computed as
`CrossPS(points[j]-points[i], 1).Normalize()` with `j = i+1` wrapping to 0. -/
noncomputable def newPolygonNormal (points : List Point) (i : Nat) : Point :=
  let j := if i + 1 ≥ points.length then 0 else i + 1
  (CrossPS ((points.getD j ⟨0, 0⟩).Sub (points.getD i ⟨0, 0⟩)) 1).Normalize

/-- NewPolygon mirrors `collide.NewPolygon` (shape.go): precompute the edge
normals of a clockwise vertex list. -/
noncomputable def NewPolygon (points : List Point) : Polygon :=
  ⟨points, (List.range points.length).map (newPolygonNormal points)⟩

/-- Shape mirrors the `collide.Shape` interface (shape.go).  The Go type is
an open interface: `Circle` and `Polygon` are the two implementations in
the package, and `other` stands for any further implementation a caller
could supply (its two methods become the two function fields). -/
inductive Shape where
  | circle (c : Circle)
  | polygon (p : Polygon)
  | other (support : Point → Int) (vtx : Int → Point)

/-- Loop of `Polygon.getSupport` (shape.go): running argmax of `Dot(dir, p_i)`
with strict improvement, scanning indices 1.. after seeding with index 0. -/
noncomputable def polygonSupportLoop (dir : Point) : List Point → Nat → Nat → ℝ → Nat
  | [], _, best, _ => best
  | q :: rest, i, best, maxDist =>
    if Dot dir q > maxDist then polygonSupportLoop dir rest (i + 1) i (Dot dir q)
    else polygonSupportLoop dir rest (i + 1) best maxDist

/-- getSupport mirrors `Circle.getSupport` / `Polygon.getSupport` (shape.go). -/
noncomputable def Shape.getSupport : Shape → Point → Int
  | .circle _, _ => 0
  | .polygon p, dir =>
      Int.ofNat (polygonSupportLoop dir (p.Points.drop 1) 1 0 (Dot dir (p.Points.getD 0 ⟨0, 0⟩)))
  | .other support _, dir => support dir

/-- getVertex mirrors `Circle.getVertex` / `Polygon.getVertex` (shape.go).
The circle returns its center for any index.  For polygons the Go code
indexes the slice directly (panicking when out of range); here out-of-range
indices return `⟨0,0⟩`, which no verified flow reaches. -/
noncomputable def Shape.getVertex : Shape → Int → Point
  | .circle c, _ => c.Center
  | .polygon p, i => p.Points.getD i.toNat ⟨0, 0⟩
  | .other _ vtx, i => vtx i

/-- Collision mirrors `collide.Collision` (collision.go). -/
structure Collision where
  Normal : Point
  Depth : ℝ

/-- The identity transform: zero position, rotation angle 0 (sin 0, cos 1). -/
noncomputable def idTransform : Transform := ⟨⟨0, 0⟩, ⟨0, 1⟩⟩

/-- CollideCircles mirrors `collide.CollideCircles` (collision.go).  Note two
features of the source preserved here: world centers are computed as
`xf.Position + center` (the rotation part of the transform is not applied
to the circle's local center), and the normal is `n.Div(d)` where `d` is
still the squared length (`d = math.Sqrt(d)` only happens afterwards). -/
noncomputable def CollideCircles (a : Circle) (xfa : Transform) (b : Circle) (xfb : Transform) :
    Option Collision :=
  let centerA := xfa.Position.Add a.Center
  let centerB := xfb.Position.Add b.Center
  let n := centerB.Sub centerA
  let r := a.Radius + b.Radius
  let d := n.LengthSquared
  if d > r * r then none
  else
    let n1 := if d ≠ 0 then n.Div d else ⟨1, 0⟩
    some ⟨n1, Real.sqrt d - r⟩

/-- Go's `math.MaxFloat64`, whose exact value is `(2 - 2⁻⁵²)·2¹⁰²³`. -/
noncomputable def maxFloat64 : ℝ := 2 ^ 1024 - 2 ^ 971

/-- Scan loop of `CollidePolygonAndCircle` (collision.go): for each edge
compute `s = Dot(normal_i, center - vertex_i)`; return `none` on the early
out `s > radius`, otherwise the maximal s and its index. -/
noncomputable def cpcLoop (a : Polygon) (center : Point) (radius : ℝ) :
    List Nat → ℝ → Int → Option (ℝ × Int)
  | [], sep, idx => some (sep, idx)
  | i :: rest, sep, idx =>
    let s := Dot (a.Normals.getD i ⟨0, 0⟩) (center.Sub (a.Points.getD i ⟨0, 0⟩))
    if s > radius then none
    else if s > sep then cpcLoop a center radius rest s (Int.ofNat i)
    else cpcLoop a center radius rest sep idx

/-- CollidePolygonAndCircle mirrors `collide.CollidePolygonAndCircle`
(collision.go).  As in `CollideCircles`, the circle's world center is
`center + xfb.Position` (no rotation applied) before mapping into A's frame. -/
noncomputable def CollidePolygonAndCircle (a : Polygon) (xfa : Transform) (b : Circle)
    (xfb : Transform) : Option Collision :=
  let center := xfa.MulT (b.Center.Add xfb.Position)
  match cpcLoop a center b.Radius (List.range a.Points.length) (-maxFloat64) 0 with
  | none => none
  | some (separation, normalIndex) =>
    let i := normalIndex.toNat
    let j := if i + 1 = a.Points.length then 0 else i + 1
    let v1 := a.Points.getD i ⟨0, 0⟩
    let v2 := a.Points.getD j ⟨0, 0⟩
    if separation = 0 then
      some ⟨((xfa.Rot.Mul (a.Normals.getD i ⟨0, 0⟩)).Neg), b.Radius⟩
    else
      let u1 := Dot (center.Sub v1) (v2.Sub v1)
      let u2 := Dot (center.Sub v2) (v1.Sub v2)
      if u1 ≤ 0 then
        if Dot (center.Sub v1) (center.Sub v1) > b.Radius * b.Radius then none
        else some ⟨(xfa.Rot.Mul (v1.Sub center)).Normalize, b.Radius - separation⟩
      else if u2 ≤ 0 then
        if Dot (center.Sub v2) (center.Sub v2) > b.Radius * b.Radius then none
        else some ⟨(xfa.Rot.Mul (center.Sub v2)).Normalize, b.Radius - separation⟩
      else
        let n := a.Normals.getD i ⟨0, 0⟩
        let face := (v1.Add v2).Mul 0.5
        if Dot (center.Sub face) n > b.Radius then none
        else some ⟨xfa.Rot.Mul n, b.Radius - separation⟩

/-- CollideCircleAndPolygon mirrors `collide.CollideCircleAndPolygon`
(collision.go): swap the arguments and negate the resulting normal. -/
noncomputable def CollideCircleAndPolygon (a : Circle) (xfa : Transform) (b : Polygon)
    (xfb : Transform) : Option Collision :=
  (CollidePolygonAndCircle b xfb a xfa).map fun col => { col with Normal := col.Normal.Neg }

/-- Inner loop of `findMaxSeparation` (collision.go): the deepest point of b
against plane (n, v), folding `if dist < d` over b's points starting from
`math.MaxFloat64`. -/
noncomputable def fmsDeepest (n v : Point) : List Point → ℝ → ℝ
  | [], d => d
  | q :: rest, d => fmsDeepest n v rest (if Dot n (q.Sub v) < d then Dot n (q.Sub v) else d)

/-- Outer loop of `findMaxSeparation` (collision.go): track the edge of a
with the greatest deepest-point distance (strict improvement). -/
noncomputable def findMaxSeparationAux (a b : Polygon) (xfa xfb : Transform) :
    List Nat → Int × ℝ → Int × ℝ
  | [], best => best
  | i :: rest, best =>
    let n := xfb.Rot.MulT (xfa.Rot.Mul (a.Normals.getD i ⟨0, 0⟩))
    let v := xfb.MulT (xfa.Mul (a.Points.getD i ⟨0, 0⟩))
    let d := fmsDeepest n v b.Points maxFloat64
    findMaxSeparationAux a b xfa xfb rest (if d > best.2 then (Int.ofNat i, d) else best)

/-- findMaxSeparation mirrors `collide.findMaxSeparation` (collision.go). -/
noncomputable def findMaxSeparation (a : Polygon) (xfa : Transform) (b : Polygon)
    (xfb : Transform) : Int × ℝ :=
  findMaxSeparationAux a b xfa xfb (List.range a.Points.length) (0, -maxFloat64)

/-- Scan loop of `findIncidentEdge` (collision.go): index of b's normal with
the least dot product against the reference normal (strict improvement,
seeded with `math.MaxFloat64`). -/
noncomputable def incidentLoop (normal : Point) : List Point → Nat → Nat → ℝ → Nat
  | [], _, best, _ => best
  | q :: rest, i, best, minDot =>
    if Dot normal q < minDot then incidentLoop normal rest (i + 1) i (Dot normal q)
    else incidentLoop normal rest (i + 1) best minDot

/-- findIncidentEdge mirrors `collide.findIncidentEdge` (collision.go). -/
noncomputable def findIncidentEdge (a : Polygon) (xfa : Transform) (b : Polygon)
    (xfb : Transform) (edge : Int) : Point × Point :=
  let normal := xfb.Rot.MulT (xfa.Rot.Mul (a.Normals.getD edge.toNat ⟨0, 0⟩))
  let index := incidentLoop normal b.Normals 0 0 maxFloat64
  let i := index
  let j := if i + 1 = b.Points.length then 0 else i + 1
  (xfb.Mul (b.Points.getD i ⟨0, 0⟩), xfb.Mul (b.Points.getD j ⟨0, 0⟩))

/-- Write `v` at position `idx` of the two-element output array of `clip`
(collision.go).  Go would panic on index 2; the safety theorem below shows
index 2 is never reached, so writes there are modelled as no-ops. -/
noncomputable def updOut (idx : Nat) (v : Point) (out : Point × Point) : Point × Point :=
  if idx = 0 then (v, out.2) else if idx = 1 then (out.1, v) else out

/-- clip mirrors `collide.clip` (collision.go): Sutherland–Hodgman clipping
of a two-point segment against the plane `Dot(n, x) = c`.  `out` starts as a
copy of the segment; `sp` counts the writes.  Returns `(sp, out)`. -/
noncomputable def clip (n : Point) (c : ℝ) (e0 e1 : Point) : Nat × Point × Point :=
  let d1 := Dot n e0 - c
  let d2 := Dot n e1 - c
  let st0 : Nat × Point × Point := (0, e0, e1)
  let st1 := if d1 ≤ 0 then (st0.1 + 1, updOut st0.1 e0 st0.2) else st0
  let st2 := if d2 ≤ 0 then (st1.1 + 1, updOut st1.1 e1 st1.2) else st1
  if d1 * d2 < 0 then
    let alpha := d1 / (d1 - d2)
    (st2.1 + 1, updOut st2.1 (e0.Add ((e1.Sub e0).Mul alpha)) st2.2)
  else st2

/-- Tail of `CollidePolygons` (collision.go) after the reference polygon,
reference edge and flip flag have been decided: incident-edge lookup,
two side-plane clips, and overlap accumulation.  The final `flip` negation
of the source is applied by the caller via `Option.map`. -/
noncomputable def collidePolygonsPost (a : Polygon) (xfa : Transform) (b : Polygon)
    (xfb : Transform) (edge : Int) : Option Collision :=
  let incidentEdge := findIncidentEdge a xfa b xfb edge
  let i := edge.toNat
  let j := if i + 1 = a.Points.length then 0 else i + 1
  let v1 := a.Points.getD i ⟨0, 0⟩
  let v2 := a.Points.getD j ⟨0, 0⟩
  let tangent := xfa.Rot.Mul ((v2.Sub v1).Normalize)
  let normal := CrossPS tangent 1
  let v1w := xfa.Mul v1
  let v2w := xfa.Mul v2
  let refC := Dot normal v1w
  let negSide := -(Dot tangent v1w)
  let posSide := Dot tangent v2w
  let c1 := clip tangent.Neg negSide incidentEdge.1 incidentEdge.2
  if c1.1 < 2 then none
  else
    let c2 := clip tangent posSide c1.2.1 c1.2.2
    if c2.1 < 2 then none
    else
      let separation0 := Dot normal c2.2.1 - refC
      let overlap0 : ℝ := if separation0 ≤ 0 then -separation0 else 0
      let separation1 := Dot normal c2.2.2 - refC
      let overlap : ℝ := if separation1 ≤ 0 then max overlap0 (-separation1) else overlap0
      if overlap = 0 then none
      else some ⟨normal, overlap⟩

/-- CollidePolygons mirrors `collide.CollidePolygons` (collision.go).  The
source's `flip` flag is realised as the final `Option.map` that negates the
normal, exactly the one place the source consults `flip`. -/
noncomputable def CollidePolygons (a : Polygon) (xfa : Transform) (b : Polygon)
    (xfb : Transform) : Option Collision :=
  let esA := findMaxSeparation a xfa b xfb
  if esA.2 ≥ 0 then none
  else
    let esB := findMaxSeparation b xfb a xfa
    if esB.2 ≥ 0 then none
    else if esB.2 > esA.2 then
      (collidePolygonsPost b xfb a xfa esB.1).map fun col => { col with Normal := col.Normal.Neg }
    else collidePolygonsPost a xfa b xfb esA.1

/-- Collide mirrors `collide.Collide` (collision.go): the nested type switch
over the two shapes, falling through to `nil` when either dynamic type is
neither `*Circle` nor `*Polygon`. -/
noncomputable def Collide : Shape → Transform → Shape → Transform → Option Collision
  | .circle a, xfa, .circle b, xfb => CollideCircles a xfa b xfb
  | .circle a, xfa, .polygon b, xfb => CollideCircleAndPolygon a xfa b xfb
  | .polygon a, xfa, .circle b, xfb => CollidePolygonAndCircle a xfa b xfb
  | .polygon a, xfa, .polygon b, xfb => CollidePolygons a xfa b xfb
  | _, _, _, _ => none

/-- Is the shape neither a circle nor a polygon (a foreign implementation of
the `Shape` interface)? -/
def Shape.isOther : Shape → Prop
  | .other _ _ => True
  | _ => False

/-- SimplexCache mirrors `collide.SimplexCache` (simplex.go); the Go arrays
`indexA [3]int` / `indexB [3]int` become three scalar fields each. -/
structure SimplexCache where
  metric : ℝ
  count : Nat
  indexA0 : Int
  indexA1 : Int
  indexA2 : Int
  indexB0 : Int
  indexB1 : Int
  indexB2 : Int

/-- The zero value `SimplexCache{}` used by `TimeOfImpact` (toi.go). -/
noncomputable def emptyCache : SimplexCache := ⟨0, 0, 0, 0, 0, 0, 0, 0⟩

/-- vertex mirrors `collide.vertex` (simplex.go): one simplex vertex. -/
structure vertex where
  a : Point
  b : Point
  p : Point
  u : ℝ
  indexA : Int
  indexB : Int

/-- The zero value of `vertex`. -/
noncomputable def vertex.zero : vertex := ⟨⟨0, 0⟩, ⟨0, 0⟩, ⟨0, 0⟩, 0, 0, 0⟩

/-- Simplex mirrors `collide.Simplex` (simplex.go); the Go array
`v [3]vertex` becomes the fields v0, v1, v2. -/
structure Simplex where
  count : Nat
  v0 : vertex
  v1 : vertex
  v2 : vertex

/-- The zero value `Simplex{}` (`var simplex Simplex` in `Distance`). -/
noncomputable def Simplex.zero : Simplex := ⟨0, vertex.zero, vertex.zero, vertex.zero⟩

/-- Metric mirrors `Simplex.Metric` (simplex.go): 0 for a point, the length
for a line, the signed area cross product for a triangle.  The Go `default`
case panics; it is modelled as 0 and is unreachable in the verified flows. -/
noncomputable def Simplex.Metric (s : Simplex) : ℝ :=
  if s.count = 1 then 0
  else if s.count = 2 then (s.v0.p.Sub s.v1.p).Length
  else if s.count = 3 then Cross (s.v1.p.Sub s.v0.p) (s.v2.p.Sub s.v0.p)
  else 0

/-- Reload one cached vertex in `Simplex.ReadCache` (simplex.go): restore the
indices, re-read the local support points and recompute the world-space
Minkowski point `p = xfb·vb - xfa·va`.  The weight u is left as it was. -/
noncomputable def reloadVertex (a : Shape) (xfa : Transform) (b : Shape) (xfb : Transform)
    (w : vertex) (ia ib : Int) : vertex :=
  let va := a.getVertex ia
  let vb := b.getVertex ib
  { w with indexA := ia, indexB := ib, a := va, b := vb,
           p := (xfb.Mul vb).Sub (xfa.Mul va) }

/-- ReadCache mirrors `Simplex.ReadCache` (simplex.go): copy count and
indices from the cache, recompute world-space points, and flush the simplex
(count 0) when the new metric is badly scaled against the cached one.
Cache counts above 3 would panic in Go and are treated like 3 here;
`TimeOfImpact` only ever produces counts 0-3. -/
noncomputable def Simplex.ReadCache (s : Simplex) (cache : SimplexCache) (a : Shape)
    (xfa : Transform) (b : Shape) (xfb : Transform) : Simplex :=
  let s1 : Simplex :=
    if cache.count = 0 then { s with count := 0 }
    else if cache.count = 1 then
      { s with count := 1, v0 := reloadVertex a xfa b xfb s.v0 cache.indexA0 cache.indexB0 }
    else if cache.count = 2 then
      { s with count := 2, v0 := reloadVertex a xfa b xfb s.v0 cache.indexA0 cache.indexB0,
                           v1 := reloadVertex a xfa b xfb s.v1 cache.indexA1 cache.indexB1 }
    else
      { s with count := cache.count,
               v0 := reloadVertex a xfa b xfb s.v0 cache.indexA0 cache.indexB0,
               v1 := reloadVertex a xfa b xfb s.v1 cache.indexA1 cache.indexB1,
               v2 := reloadVertex a xfa b xfb s.v2 cache.indexA2 cache.indexB2 }
  if 1 < s1.count then
    let mOld := cache.metric
    let mNew := s1.Metric
    if mNew < 0.5 * mOld ∨ 2 * mOld < mNew ∨ mNew < 0.0001 then { s1 with count := 0 }
    else s1
  else s1

/-- WriteCache mirrors `Simplex.WriteCache` (simplex.go): store metric,
count, and the index pairs of the live vertices (stale slots keep their
previous cache values, as in the Go array writes). -/
noncomputable def Simplex.WriteCache (s : Simplex) (cache : SimplexCache) : SimplexCache :=
  let c0 := { cache with metric := s.Metric, count := s.count }
  if s.count = 0 then c0
  else if s.count = 1 then { c0 with indexA0 := s.v0.indexA, indexB0 := s.v0.indexB }
  else if s.count = 2 then
    { c0 with indexA0 := s.v0.indexA, indexB0 := s.v0.indexB,
              indexA1 := s.v1.indexA, indexB1 := s.v1.indexB }
  else
    { c0 with indexA0 := s.v0.indexA, indexB0 := s.v0.indexB,
              indexA1 := s.v1.indexA, indexB1 := s.v1.indexB,
              indexA2 := s.v2.indexA, indexB2 := s.v2.indexB }

/-- ClosestPoint mirrors `Simplex.ClosestPoint` (simplex.go).  The Go
`default` case panics; it is modelled as the origin and is unreachable
after a successful GJK run (count is then 1, 2 or 3). -/
noncomputable def Simplex.ClosestPoint (s : Simplex) : Point :=
  if s.count = 1 then s.v0.p
  else if s.count = 2 then (s.v0.p.Mul s.v0.u).Add (s.v1.p.Mul s.v1.u)
  else ⟨0, 0⟩

/-- searchDirection mirrors `Simplex.searchDirection` (simplex.go).  Counts
other than 1 and 2 panic in Go; they are unreachable here (the GJK loop
asks for a direction only after evolving to count 1 or 2). -/
noncomputable def Simplex.searchDirection (s : Simplex) : Point :=
  if s.count = 1 then s.v0.p.Neg
  else
    let a := s.v0.p
    let b := s.v1.p
    let ab := b.Sub a
    let ao := a.Neg
    if Cross ab ao > 0 then CrossSP 1 ab else CrossPS ab 1

/-- evolveLine mirrors `Simplex.evolveLine` (simplex.go): Voronoi reduction
of a segment with pre-division barycentric weights. -/
noncomputable def Simplex.evolveLine (s : Simplex) : Simplex :=
  let a := s.v0
  let b := s.v1
  let n := b.p.Sub a.p
  let u := Dot b.p n
  let v := Dot a.p.Neg n
  if v ≤ 0 then { s with count := 1, v0 := a }
  else if u ≤ 0 then { s with count := 1, v0 := b }
  else
    let l := n.LengthSquared
    { s with v0 := { a with u := u / l }, v1 := { b with u := v / l } }

/-- evolveTriangle mirrors `Simplex.evolveTriangle` (simplex.go), including
the source quirk that the Region C branch assigns the simplex but does not
return, so the edge-region and interior checks below still run on the entry
values of a, b, c and can overwrite the Region C assignment. -/
noncomputable def Simplex.evolveTriangle (s : Simplex) : Simplex :=
  let a := s.v0
  let b := s.v1
  let c := s.v2
  let ab := b.p.Sub a.p
  let bc := c.p.Sub b.p
  let ca := a.p.Sub c.p
  let uAB := Dot b.p ab
  let vAB := Dot a.p.Neg ab
  let uBC := Dot c.p bc
  let vBC := Dot b.p.Neg bc
  let uCA := Dot a.p ca
  let vCA := Dot c.p.Neg ca
  if vAB ≤ 0 ∧ uCA ≤ 0 then { s with count := 1, v0 := a }
  else if uAB ≤ 0 ∧ vBC ≤ 0 then { s with count := 1, v0 := b }
  else
    let s1 := if uBC ≤ 0 ∧ vCA ≤ 0 then { s with count := 1, v0 := c } else s
    let area := Cross (b.p.Sub a.p) (c.p.Sub a.p)
    let uABC := Cross b.p c.p * area
    let vABC := Cross c.p a.p * area
    let wABC := Cross a.p b.p * area
    if uAB > 0 ∧ vAB > 0 ∧ wABC ≤ 0 then
      let l := ab.LengthSquared
      { s1 with count := 2, v0 := { a with u := uAB / l }, v1 := { b with u := vAB / l } }
    else if uBC > 0 ∧ vBC > 0 ∧ uABC ≤ 0 then
      let l := bc.LengthSquared
      { s1 with count := 2, v0 := { b with u := uBC / l }, v1 := { c with u := vBC / l } }
    else if uCA > 0 ∧ vCA > 0 ∧ vABC ≤ 0 then
      let l := ca.LengthSquared
      { s1 with count := 2, v0 := { c with u := uCA / l }, v1 := { a with u := vCA / l } }
    else
      let d := uABC + vABC + wABC
      { s1 with v0 := { s1.v0 with u := uABC / d },
                v1 := { s1.v1 with u := vABC / d },
                v2 := { s1.v2 with u := wABC / d } }

/-- evolve mirrors `Simplex.evolve` (simplex.go).  Counts outside 1-3 panic
in Go and leave the simplex unchanged here (unreachable in GJK). -/
noncomputable def Simplex.evolve (s : Simplex) : Simplex :=
  if s.count = 1 then s
  else if s.count = 2 then s.evolveLine
  else if s.count = 3 then s.evolveTriangle
  else s

/-- The index pairs of the live simplex vertices, as recorded into
`oldIndexA` / `oldIndexB` at the top of the GJK loop (simplex.go). -/
noncomputable def Simplex.pairs (s : Simplex) : List (Int × Int) :=
  if s.count = 0 then []
  else if s.count = 1 then [(s.v0.indexA, s.v0.indexB)]
  else if s.count = 2 then [(s.v0.indexA, s.v0.indexB), (s.v1.indexA, s.v1.indexB)]
  else [(s.v0.indexA, s.v0.indexB), (s.v1.indexA, s.v1.indexB), (s.v2.indexA, s.v2.indexB)]

/-- Append a support vertex: `s.v[s.count] = support; s.count++` (simplex.go).
Counts above 2 would write out of bounds in Go; unreachable, modelled as a
bare count increment. -/
noncomputable def Simplex.append (s : Simplex) (w : vertex) : Simplex :=
  if s.count = 0 then { s with count := 1, v0 := w }
  else if s.count = 1 then { s with count := 2, v1 := w }
  else if s.count = 2 then { s with count := 3, v2 := w }
  else { s with count := s.count + 1 }

/-- One iteration of the `GJK` main loop (simplex.go): record the old index
pairs, evolve, exit on count 3 or a zero search direction, compute the new
support vertex, exit on a duplicate index pair, otherwise append. -/
inductive GJKStep where
  | done (s : Simplex)
  | next (s : Simplex)

/-- Body of the GJK main loop (simplex.go). -/
noncomputable def gjkStep (a : Shape) (xfa : Transform) (b : Shape) (xfb : Transform)
    (s : Simplex) : GJKStep :=
  let old := s.pairs
  let s1 := s.evolve
  if s1.count = 3 then .done s1
  else
    let dir := s1.searchDirection
    if dir.LengthSquared = 0 then .done s1
    else
      let indexA := a.getSupport (xfa.Rot.MulT dir.Neg)
      let indexB := b.getSupport (xfb.Rot.MulT dir)
      let va := a.getVertex indexA
      let vb := b.getVertex indexB
      let support : vertex := ⟨va, vb, (xfb.Mul vb).Sub (xfa.Mul va), 1, indexA, indexB⟩
      if (indexA, indexB) ∈ old then .done s1
      else .next (s1.append support)

/-- The unbounded GJK main loop (simplex.go), run with explicit fuel: `none`
means the fuel was exhausted before the loop's own exit conditions fired. -/
noncomputable def gjkRun (a : Shape) (xfa : Transform) (b : Shape) (xfb : Transform) :
    Nat → Simplex → Option Simplex
  | 0, _ => none
  | k + 1, s =>
    match gjkStep a xfa b xfb s with
    | .done s1 => some s1
    | .next s1 => gjkRun a xfa b xfb k s1

/-- GJK mirrors `Simplex.GJK` (simplex.go): seed an empty simplex with the
vertex pair (0, 0), then run the main loop. -/
noncomputable def Simplex.GJK (s : Simplex) (fuel : Nat) (a : Shape) (xfa : Transform)
    (b : Shape) (xfb : Transform) : Option Simplex :=
  let s0 :=
    if s.count = 0 then
      let va := a.getVertex 0
      let vb := b.getVertex 0
      { s with count := 1, v0 := ⟨va, vb, (xfb.Mul vb).Sub (xfa.Mul va), 1, 0, 0⟩ }
    else s
  gjkRun a xfa b xfb fuel s0

/-- Distance mirrors `collide.Distance` (simplex.go): run GJK from a zeroed
simplex and return the length of the closest point of the final simplex.
The fuel is the extra argument of the embedding; the Go loop is unbounded. -/
noncomputable def Distance (fuel : Nat) (a : Shape) (xfa : Transform) (b : Shape)
    (xfb : Transform) : Option ℝ :=
  (Simplex.zero.GJK fuel a xfa b xfb).map fun s => s.ClosestPoint.Length

/-- axis mirrors the `axis` constants (toi.go). -/
inductive axis where
  | axisPoints
  | axisFaceA
  | axisFaceB

/-- separation mirrors `collide.separation` (toi.go).  The Go field `local`
is a reserved word in Lean and becomes `localPt`. -/
structure separation where
  kind : axis
  shapeA : Shape
  shapeB : Shape
  axis : Point
  localPt : Point

/-- newSeparation mirrors `collide.newSeparation` (toi.go): zero kind
(axisPoints), zero axis and local point. -/
noncomputable def newSeparation (shapeA shapeB : Shape) : separation :=
  ⟨.axisPoints, shapeA, shapeB, ⟨0, 0⟩, ⟨0, 0⟩⟩

/-- init mirrors `separation.init` (toi.go): build the separating axis from
the cached simplex (point-point, face of B, or face of A). -/
noncomputable def separation.init (s : separation) (cache : SimplexCache)
    (xfa xfb : Transform) : separation :=
  if cache.count = 1 then
    let pointA := xfa.Mul (s.shapeA.getVertex cache.indexA0)
    let pointB := xfb.Mul (s.shapeB.getVertex cache.indexB0)
    { s with kind := .axisPoints, axis := (pointB.Sub pointA).Normalize }
  else if cache.indexA0 = cache.indexA1 then
    let pointB1 := s.shapeB.getVertex cache.indexB0
    let pointB2 := s.shapeB.getVertex cache.indexB1
    let ax := CrossPS ((pointB2.Sub pointB1).Normalize) 1
    let lp := (pointB1.Add pointB2).Mul 0.5
    let pointB := xfb.Mul lp
    let pointA := xfa.Mul (s.shapeA.getVertex cache.indexA0)
    let normal := xfb.Rot.Mul ax
    let dist := Dot (pointA.Sub pointB) normal
    { s with kind := .axisFaceB, axis := if dist < 0 then ax.Neg else ax, localPt := lp }
  else
    let pointA1 := s.shapeA.getVertex cache.indexA0
    let pointA2 := s.shapeA.getVertex cache.indexA1
    let ax := CrossPS ((pointA2.Sub pointA1).Normalize) 1
    let lp := (pointA1.Add pointA2).Mul 0.5
    let pointA := xfa.Mul lp
    let pointB := xfb.Mul (s.shapeB.getVertex cache.indexB0)
    let normal := xfa.Rot.Mul ax
    let dist := Dot (pointB.Sub pointA) normal
    { s with kind := .axisFaceA, axis := if dist < 0 then ax.Neg else ax, localPt := lp }

/-- MinSeparation mirrors `separation.MinSeparation` (toi.go): the deepest
point along the axis, with the witness indices (−1 for the face shape). -/
noncomputable def separation.MinSeparation (s : separation) (xfa xfb : Transform) :
    Int × Int × ℝ :=
  match s.kind with
  | .axisPoints =>
    let axisA := xfa.Rot.MulT s.axis
    let axisB := xfb.Rot.MulT s.axis.Neg
    let indexA := s.shapeA.getSupport axisA
    let pointA := xfa.Mul (s.shapeA.getVertex indexA)
    let indexB := s.shapeB.getSupport axisB
    let pointB := xfb.Mul (s.shapeB.getVertex indexB)
    (indexA, indexB, Dot (pointB.Sub pointA) s.axis)
  | .axisFaceA =>
    let normal := xfa.Rot.Mul s.axis
    let axisB := xfb.Rot.MulT normal.Neg
    let indexB := s.shapeB.getSupport axisB
    let pointB := xfb.Mul (s.shapeB.getVertex indexB)
    let pointA := xfa.Mul s.localPt
    (-1, indexB, Dot (pointB.Sub pointA) normal)
  | .axisFaceB =>
    let normal := xfb.Rot.Mul s.axis
    let axisA := xfa.Rot.MulT normal.Neg
    let indexA := s.shapeA.getSupport axisA
    let pointA := xfa.Mul (s.shapeA.getVertex indexA)
    let pointB := xfb.Mul s.localPt
    (indexA, -1, Dot (pointA.Sub pointB) normal)

/-- Evaluate mirrors `separation.Evaluate` (toi.go): the separation of the
stored witness features at the given transforms. -/
noncomputable def separation.Evaluate (s : separation) (indexA : Int) (xfa : Transform)
    (indexB : Int) (xfb : Transform) : ℝ :=
  match s.kind with
  | .axisPoints =>
    let a := xfa.Mul (s.shapeA.getVertex indexA)
    let b := xfb.Mul (s.shapeB.getVertex indexB)
    Dot (b.Sub a) s.axis
  | .axisFaceA =>
    let normal := xfa.Rot.Mul s.axis
    let a := xfa.Mul s.localPt
    let b := xfb.Mul (s.shapeB.getVertex indexB)
    Dot (b.Sub a) normal
  | .axisFaceB =>
    let normal := xfb.Rot.Mul s.axis
    let a := xfa.Mul (s.shapeA.getVertex indexA)
    let b := xfb.Mul s.localPt
    Dot (a.Sub b) normal

/-- The constant `target = 0.01` of `TimeOfImpact` (toi.go). -/
noncomputable def toiTarget : ℝ := 0.01

/-- The constant `tolerance = 0.25 * 0.005` of `TimeOfImpact` (toi.go). -/
noncomputable def toiTolerance : ℝ := 0.25 * 0.005

/-- The bisection/secant root finder of `TimeOfImpact` (toi.go): 50 rounds
alternating bisection (even j) and the secant rule (odd j), shrinking the
bracket (a1, a2) with values (s1, s2).  On convergence the new tentative t2
is the root estimate; when the rounds run out, t2 is returned unchanged. -/
noncomputable def rootAux (fcn : separation) (sweepA sweepB : Sweep) (indexA indexB : Int) :
    Nat → Nat → ℝ → ℝ → ℝ → ℝ → ℝ → ℝ
  | 0, _, _, _, _, _, t2 => t2
  | k + 1, j, a1, a2, s1, s2, t2 =>
    let t := if j % 2 = 1 then a1 + (toiTarget - s1) * (a2 - a1) / (s2 - s1)
             else 0.5 * (a1 + a2)
    let xfa := sweepA.GetTransform t
    let xfb := sweepB.GetTransform t
    let s := fcn.Evaluate indexA xfa indexB xfb
    if |s - toiTarget| < toiTolerance then t
    else if s > toiTarget then rootAux fcn sweepA sweepB indexA indexB k (j + 1) t a2 s s2 t2
    else rootAux fcn sweepA sweepB indexA indexB k (j + 1) a1 t s1 s t2

/-- Outcome of the inner advance loop of `TimeOfImpact` (toi.go): return a
final value from the whole function, break out of the outer loop (which
then returns its current t1), or continue the outer loop with a new t1. -/
inductive InnerRes where
  | ret (t : ℝ)
  | brk
  | cont (t1 : ℝ)

/-- The inner advance loop of `TimeOfImpact` (toi.go), 20 rounds: find the
deepest point at t2, classify the separations at t2 and t1, and otherwise
run the root finder to pull t2 back toward the target separation. -/
noncomputable def innerLoop (fcn : separation) (sweepA sweepB : Sweep) :
    Nat → ℝ → ℝ → InnerRes
  | 0, t1, _ => .cont t1
  | k + 1, t1, t2 =>
    let xfa := sweepA.GetTransform t2
    let xfb := sweepB.GetTransform t2
    let m := fcn.MinSeparation xfa xfb
    if m.2.2 > toiTarget + toiTolerance then .ret 1
    else if m.2.2 > toiTarget - toiTolerance then .cont t2
    else
      let s1 := fcn.Evaluate m.1 (sweepA.GetTransform t1) m.2.1 (sweepB.GetTransform t1)
      if s1 < toiTarget - toiTolerance then .brk
      else if s1 ≤ toiTarget + toiTolerance then .brk
      else
        innerLoop fcn sweepA sweepB k t1
          (rootAux fcn sweepA sweepB m.1 m.2.1 50 0 t1 t2 s1 m.2.2 t2)

/-- The outer loop of `TimeOfImpact` (toi.go), 100 rounds: run GJK through
the cache at t1, return 0 on overlap, return t1 on near-contact, otherwise
build a separation function and run the inner loop.  `none` means the GJK
fuel ran out (the embedding's stand-in for the unbounded Go loop). -/
noncomputable def outerLoop (gjkFuel : Nat) (a : Shape) (sweepA : Sweep) (b : Shape)
    (sweepB : Sweep) : Nat → ℝ → SimplexCache → Simplex → Option ℝ
  | 0, t1, _, _ => some t1
  | k + 1, t1, cache, simplex =>
    let xfa := sweepA.GetTransform t1
    let xfb := sweepB.GetTransform t1
    let s0 := simplex.ReadCache cache a xfa b xfb
    match s0.GJK gjkFuel a xfa b xfb with
    | none => none
    | some s1 =>
      let cache1 := s1.WriteCache cache
      let distance := s1.ClosestPoint.Length
      if distance ≤ 0 then some 0
      else if distance < toiTarget + toiTolerance then some t1
      else
        let fcn := (newSeparation a b).init cache1 xfa xfb
        match innerLoop fcn sweepA sweepB 20 t1 1 with
        | .ret r => some r
        | .brk => some t1
        | .cont t1x => outerLoop gjkFuel a sweepA b sweepB k t1x cache1 s1

/-- TimeOfImpact mirrors `collide.TimeOfImpact` (toi.go); the caller-owned
simplex is immediately loaded from a fresh zero cache, exactly as in the
source.  The extra fuel argument bounds only the inner GJK loop, which is
unbounded in Go; all other loops carry their Go iteration caps (100/20/50). -/
noncomputable def TimeOfImpact (gjkFuel : Nat) (simplex : Simplex) (a : Shape)
    (sweepA : Sweep) (b : Shape) (sweepB : Sweep) : Option ℝ :=
  outerLoop gjkFuel a sweepA b sweepB 100 0 emptyCache simplex

/-- Shapes within the spec's scope: the two concrete variants. -/
def Shape.isCircleOrPolygon : Shape → Prop
  | .circle _ => True
  | .polygon _ => True
  | .other _ _ => False

/-- The quantity `uAB` computed by `evolveTriangle` (simplex.go). -/
noncomputable def triUAB (s : Simplex) : ℝ := Dot s.v1.p (s.v1.p.Sub s.v0.p)

/-- The quantity `vAB` computed by `evolveTriangle` (simplex.go). -/
noncomputable def triVAB (s : Simplex) : ℝ := Dot s.v0.p.Neg (s.v1.p.Sub s.v0.p)

/-- The quantity `uBC` computed by `evolveTriangle` (simplex.go). -/
noncomputable def triUBC (s : Simplex) : ℝ := Dot s.v2.p (s.v2.p.Sub s.v1.p)

/-- The quantity `vBC` computed by `evolveTriangle` (simplex.go). -/
noncomputable def triVBC (s : Simplex) : ℝ := Dot s.v1.p.Neg (s.v2.p.Sub s.v1.p)

/-- The quantity `uCA` computed by `evolveTriangle` (simplex.go). -/
noncomputable def triUCA (s : Simplex) : ℝ := Dot s.v0.p (s.v0.p.Sub s.v2.p)

/-- The quantity `vCA` computed by `evolveTriangle` (simplex.go). -/
noncomputable def triVCA (s : Simplex) : ℝ := Dot s.v2.p.Neg (s.v0.p.Sub s.v2.p)

/-- The signed area `area` computed by `evolveTriangle` (simplex.go). -/
noncomputable def triArea (s : Simplex) : ℝ := Cross (s.v1.p.Sub s.v0.p) (s.v2.p.Sub s.v0.p)

/-- The quantity `wABC` computed by `evolveTriangle` (simplex.go). -/
noncomputable def triWABC (s : Simplex) : ℝ := Cross s.v0.p s.v1.p * triArea s

/-- A simplex of count 3 whose Minkowski points all lie on the line y = 1:
a = (-2, 1), b = (2, 1), c = (0, 1), with c on the segment ab. -/
noncomputable def triCollinear : Simplex :=
  ⟨3, { vertex.zero with p := ⟨-2, 1⟩ }, { vertex.zero with p := ⟨2, 1⟩ },
      { vertex.zero with p := ⟨0, 1⟩ }⟩

/-- A proper (positive-area) count-3 simplex whose origin lies in vertex C's
Voronoi region: a = (-1, 2), b = (1, 2), c = (0, 1). -/
noncomputable def triRegionC : Simplex :=
  ⟨3, { vertex.zero with p := ⟨-1, 2⟩ }, { vertex.zero with p := ⟨1, 2⟩ },
      { vertex.zero with p := ⟨0, 1⟩ }⟩

/-- The symmetry property claimed for a `Collide` pair: both absent, or both
present with equal depths and componentwise negated normals within 1e-6. -/
noncomputable def CollideSymmetricAt (a : Shape) (xfa : Transform) (b : Shape)
    (xfb : Transform) : Prop :=
  match Collide a xfa b xfb, Collide b xfb a xfa with
  | none, none => True
  | some c1, some c2 =>
      c1.Depth = c2.Depth ∧ |c1.Normal.X + c2.Normal.X| ≤ 1e-6 ∧
        |c1.Normal.Y + c2.Normal.Y| ≤ 1e-6
  | _, _ => False

/-- The two degenerate situations in which `Collide`'s symmetry breaks:
circle-circle with coinciding computed world centers (both calls then pick
the arbitrary normal (1, 0)), and polygon-polygon with exactly tied maximum
separations (both calls then keep their own first argument as reference). -/
noncomputable def collideSymBreak : Shape → Transform → Shape → Transform → Prop
  | .circle a, xfa, .circle b, xfb =>
      (xfb.Position.Add b.Center).Sub (xfa.Position.Add a.Center) = (⟨0, 0⟩ : Point)
  | .polygon a, xfa, .polygon b, xfb =>
      (findMaxSeparation a xfa b xfb).2 = (findMaxSeparation b xfb a xfa).2
  | _, _, _, _ => False

/-- The unit square used in the counterexamples: `Rect(0, 0, 1, 1)`. -/
noncomputable def sqUnit : Polygon :=
  NewPolygon [⟨-0.5, -0.5⟩, ⟨0.5, -0.5⟩, ⟨0.5, 0.5⟩, ⟨-0.5, 0.5⟩]

/-- Mirror of a simplex vertex under swapping the roles of shapes A and B:
the support points swap, the Minkowski point is negated, the indices swap,
and the barycentric weight is unchanged. -/
noncomputable def vmirror (v : vertex) : vertex :=
  ⟨v.b, v.a, v.p.Neg, v.u, v.indexB, v.indexA⟩

/-- Mirror of a whole simplex under swapping shapes A and B. -/
noncomputable def smirror (s : Simplex) : Simplex :=
  ⟨s.count, vmirror s.v0, vmirror s.v1, vmirror s.v2⟩

/-- Mirror of a GJK loop-step outcome. -/
noncomputable def gmirror : GJKStep → GJKStep
  | .done s => .done (smirror s)
  | .next s => .next (smirror s)

/-- World-space Minkowski-difference point of an index pair, as the GJK
loop computes it: `xfb·b[ib] - xfa·a[ia]`. -/
noncomputable def mkPt (a : Shape) (xfa : Transform) (b : Shape) (xfb : Transform)
    (ia ib : Int) : Point :=
  (xfb.Mul (b.getVertex ib)).Sub (xfa.Mul (a.getVertex ia))

/-- Number of valid vertex indices of a shape (1 for a circle, the vertex
count for a polygon, 0 for a foreign implementation). -/
def Shape.idxBound : Shape → Nat
  | .circle _ => 1
  | .polygon p => p.Points.length
  | .other _ _ => 0

/-- The shapes within claim C4's scope: a circle, or a polygon with at
least one vertex. -/
def validShape : Shape → Prop
  | .circle _ => True
  | .polygon p => 1 ≤ p.Points.length
  | .other _ _ => False

/-- A valid vertex index for a shape. -/
def validIdx (sh : Shape) (i : Int) : Prop := 0 ≤ i ∧ i.toNat < sh.idxBound

/-- Invariant of a live GJK simplex vertex: its indices are valid and its
Minkowski point is the one its index pair denotes. -/
def vertexOK (a : Shape) (xfa : Transform) (b : Shape) (xfb : Transform) (v : vertex) :
    Prop :=
  validIdx a v.indexA ∧ validIdx b v.indexB ∧ v.p = mkPt a xfa b xfb v.indexA v.indexB

/-- Invariant of a GJK simplex inside the main loop. -/
def simplexOK (a : Shape) (xfa : Transform) (b : Shape) (xfb : Transform) (s : Simplex) :
    Prop :=
  1 ≤ s.count ∧ s.count ≤ 3 ∧ vertexOK a xfa b xfb s.v0 ∧
    (2 ≤ s.count → vertexOK a xfa b xfb s.v1) ∧ (3 ≤ s.count → vertexOK a xfa b xfb s.v2)

/-- The Minkowski points of the live simplex vertices. -/
noncomputable def Simplex.ptsList (s : Simplex) : List Point :=
  if s.count = 1 then [s.v0.p]
  else if s.count = 2 then [s.v0.p, s.v1.p]
  else [s.v0.p, s.v1.p, s.v2.p]

/-- Membership in the convex hull of a finite point list, as the closure of
the list under pairwise convex mixing. -/
inductive InConv (ps : List Point) : Point → Prop
  | base {q : Point} (hq : q ∈ ps) : InConv ps q
  | mix {x y : Point} (t : ℝ) (h0 : 0 ≤ t) (h1 : t ≤ 1) (hx : InConv ps x)
      (hy : InConv ps y) : InConv ps ((x.Mul (1 - t)).Add (y.Mul t))

/-- Certificate that v is a closest point to the origin of the hull of ps:
every generator lies in the closed half-plane `Dot v x ≥ |v|²`. -/
def IsCert (v : Point) (ps : List Point) : Prop := ∀ p ∈ ps, Dot v v ≤ Dot v p

/-- Two simplex vertices that agree except possibly in the weight u (evolve
rewrites weights but never the points or indices of kept vertices). -/
def sameVert (v w : vertex) : Prop :=
  v.a = w.a ∧ v.b = w.b ∧ v.p = w.p ∧ v.indexA = w.indexA ∧ v.indexB = w.indexB

/-- The live vertices of a simplex. -/
noncomputable def Simplex.liveVerts (s : Simplex) : List vertex :=
  if s.count = 1 then [s.v0]
  else if s.count = 2 then [s.v0, s.v1]
  else [s.v0, s.v1, s.v2]

/-- The facts one evolve step establishes when its result is not a full
triangle: the result has one or two vertices, all taken (up to the weight
field) from the entry simplex; its closest point lies in the hull of its
own points and is certified optimal against every entry point; and a
two-vertex result carries nonnegative weights summing to one, a closest
point orthogonal to the edge, and strictly positive edge-region values. -/
def evolveGood (s e : Simplex) : Prop :=
  (e.count = 1 ∨ e.count = 2) ∧
  (∃ w ∈ s.liveVerts, sameVert e.v0 w) ∧
  (e.count = 2 → ∃ w ∈ s.liveVerts, sameVert e.v1 w) ∧
  InConv e.ptsList e.ClosestPoint ∧
  IsCert e.ClosestPoint s.ptsList ∧
  (e.count = 2 →
    0 ≤ e.v0.u ∧ 0 ≤ e.v1.u ∧ e.v0.u + e.v1.u = 1 ∧
    Dot e.ClosestPoint (e.v1.p.Sub e.v0.p) = 0 ∧
    0 < Dot e.v1.p (e.v1.p.Sub e.v0.p) ∧
    0 < Dot e.v0.p.Neg (e.v1.p.Sub e.v0.p))

/-- One iteration of the GJK loop as a total function on simplexes (the
result of the step whether the loop exits or continues); used to phrase
the trajectory of the loop. -/
noncomputable def stepF (a : Shape) (xfa : Transform) (b : Shape) (xfb : Transform)
    (s : Simplex) : Simplex :=
  match gjkStep a xfa b xfb s with
  | .done s1 => s1
  | .next s1 => s1

/-- The finite summary of a loop simplex that determines its closest
point: the count and the live index pairs (dead slots are normalized). -/
noncomputable def stateKey (s : Simplex) : Nat × (Int × Int) × (Int × Int) × (Int × Int) :=
  (s.count, (s.v0.indexA, s.v0.indexB),
    if 2 ≤ s.count then (s.v1.indexA, s.v1.indexB) else (0, 0),
    if 3 ≤ s.count then (s.v2.indexA, s.v2.indexB) else (0, 0))

/-- A stationary sweep at the origin (used by the TOI witness). -/
noncomputable def sweepZero : Sweep := ⟨⟨0, 0⟩, ⟨0, 0⟩, 0, 0⟩

/-- A stationary sweep at (5, 0) (used by the TOI witness). -/
noncomputable def sweepFive : Sweep := ⟨⟨5, 0⟩, ⟨5, 0⟩, 0, 0⟩

/-- Evaluate `Real.sqrt` at a perfect square. -/
theorem sqrtEval {a b : ℝ} (hb : 0 ≤ b) (h : b * b = a) : Real.sqrt a = b := by
  rw [← h]
  exact Real.sqrt_mul_self hb

/-- Claim C8: in `clip`, at most two of the three write conditions
(d1 ≤ 0, d2 ≤ 0, d1·d2 < 0) hold simultaneously, the write index of the
straddle write is at most 1 (so every write to the 2-element output array
is in bounds), and the returned count is at most 2. -/
theorem c8_clip_writes_in_bounds (n : Point) (c : ℝ) (e0 e1 : Point) :
    (¬(Dot n e0 - c ≤ 0 ∧ Dot n e1 - c ≤ 0 ∧ (Dot n e0 - c) * (Dot n e1 - c) < 0)) ∧
    ((Dot n e0 - c) * (Dot n e1 - c) < 0 →
      ((if Dot n e0 - c ≤ 0 then 1 else 0) + (if Dot n e1 - c ≤ 0 then 1 else 0) : Nat) ≤ 1) ∧
    (clip n c e0 e1).1 ≤ 2 := by
  set d1 := Dot n e0 - c with hd1
  set d2 := Dot n e1 - c with hd2
  have hkey : d1 ≤ 0 → d2 ≤ 0 → ¬(d1 * d2 < 0) := by
    intro h1 h2
    exact not_lt.mpr (mul_nonneg_of_nonpos_of_nonpos h1 h2)
  refine ⟨fun ⟨h1, h2, h3⟩ => hkey h1 h2 h3, ?_, ?_⟩
  · intro hprod
    by_cases h1 : d1 ≤ 0 <;> by_cases h2 : d2 ≤ 0 <;> simp [h1, h2]
    exact absurd hprod (hkey h1 h2)
  · unfold clip
    rw [← hd1, ← hd2]
    by_cases h1 : d1 ≤ 0 <;> by_cases h2 : d2 ≤ 0 <;>
      by_cases h3 : d1 * d2 < 0 <;> simp [h1, h2, h3]
    exact absurd h3 (hkey h1 h2)

/-- Claim C8 witness: the bounds instantiated at the plane x = 0 and the
segment from (-1, 0) to (1, 0). -/
theorem c8_clip_writes_in_bounds_witness :
    (¬(Dot ⟨1, 0⟩ ⟨-1, 0⟩ - 0 ≤ 0 ∧ Dot ⟨1, 0⟩ ⟨1, 0⟩ - 0 ≤ 0 ∧
        (Dot ⟨1, 0⟩ ⟨-1, 0⟩ - 0) * (Dot ⟨1, 0⟩ ⟨1, 0⟩ - 0) < 0)) ∧
    ((Dot ⟨1, 0⟩ ⟨-1, 0⟩ - 0) * (Dot ⟨1, 0⟩ ⟨1, 0⟩ - 0) < 0 →
      ((if Dot ⟨1, 0⟩ ⟨-1, 0⟩ - 0 ≤ 0 then 1 else 0) +
        (if Dot ⟨1, 0⟩ ⟨1, 0⟩ - 0 ≤ 0 then 1 else 0) : Nat) ≤ 1) ∧
    (clip ⟨1, 0⟩ 0 ⟨-1, 0⟩ ⟨1, 0⟩).1 ≤ 2 :=
  c8_clip_writes_in_bounds ⟨1, 0⟩ 0 ⟨-1, 0⟩ ⟨1, 0⟩

/-- Claim C9: when either argument's dynamic shape type is neither Circle
nor Polygon, `Collide` falls through its type switch and returns nil. -/
theorem c9_collide_other_is_none (a b : Shape) (xfa xfb : Transform)
    (h : a.isOther ∨ b.isOther) : Collide a xfa b xfb = none := by
  cases a <;> cases b <;> simp [Shape.isOther] at h <;> rfl

/-- Claim C9 witness: a foreign shape against a circle yields nil. -/
theorem c9_collide_other_is_none_witness :
    Collide (.other (fun _ => 0) (fun _ => ⟨0, 0⟩)) idTransform
      (.circle ⟨⟨0, 0⟩, 1⟩) idTransform = none :=
  c9_collide_other_is_none _ _ _ _ (Or.inl trivial)

/-- Claim C2 (code bug): at radius-2 circles centered (0,0) and (3,0) under
identity transforms, `CollideCircles` returns the normal (1/3, 0) — the
center difference divided by its squared length 9, because the source
divides by `d` before `d = math.Sqrt(d)` — instead of the unit vector
(1, 0) required by the claim.  The returned depth |n| - r = -1 is as
claimed. -/
theorem c2_circle_normal_divided_by_squared_length :
    CollideCircles ⟨⟨0, 0⟩, 2⟩ idTransform ⟨⟨3, 0⟩, 2⟩ idTransform =
      some ⟨⟨1/3, 0⟩, -1⟩ ∧ Point.LengthSquared ⟨1/3, 0⟩ ≠ 1 := by
  have h9 : Real.sqrt 9 = 3 := sqrtEval (by norm_num) (by norm_num)
  constructor
  · unfold CollideCircles
    simp only [idTransform, Point.Add, Point.Sub, Point.LengthSquared, Point.Div]
    norm_num [h9]
  · simp only [Point.LengthSquared]
    norm_num

/-- Claim C5 counterexample: for the collinear count-3 simplex with
Minkowski points a = (-2,1), b = (2,1), c = (0,1), the Region C premises
uBC ≤ 0 and vCA ≤ 0 hold, yet `evolveTriangle` ends with count 2 and
v[0] = former a — the Region C assignment falls through without a return
and the degenerate Region AB check overwrites it. -/
theorem c5_regionC_overwritten :
    triUBC triCollinear ≤ 0 ∧ triVCA triCollinear ≤ 0 ∧ triCollinear.count = 3 ∧
    (triCollinear.evolveTriangle).count = 2 ∧
    (triCollinear.evolveTriangle).v0.p ≠ triCollinear.v2.p := by
  refine ⟨?_, ?_, rfl, ?_, ?_⟩
  · simp only [triUBC, triCollinear, vertex.zero, Dot, Point.Sub]
    norm_num
  · simp only [triVCA, triCollinear, vertex.zero, Dot, Point.Sub, Point.Neg]
    norm_num
  · simp only [Simplex.evolveTriangle, triCollinear, vertex.zero, Dot, Cross,
      Point.Sub, Point.Neg, Point.LengthSquared]
    norm_num
  · simp only [Simplex.evolveTriangle, triCollinear, vertex.zero, Dot, Cross,
      Point.Sub, Point.Neg, Point.LengthSquared]
    norm_num [Point.mk.injEq]

/-- Claim C5 amended: under the Region C premises uBC ≤ 0 and vCA ≤ 0, and
provided neither vertex region A nor B applies (those return first) and the
degenerate Region AB condition does not hold afterwards, `evolveTriangle`
ends with count 1 and v[0] carrying former vertex C's support points,
Minkowski point and indices.  (The barycentric weight u of v[0] is still
overwritten by the fall-through into the interior case, so the claim's
"no further modification" holds only up to the u fields.) -/
theorem c5_amended (s : Simplex) (_h3 : s.count = 3)
    (huBC : triUBC s ≤ 0) (hvCA : triVCA s ≤ 0)
    (hnA : ¬(triVAB s ≤ 0 ∧ triUCA s ≤ 0))
    (hnB : ¬(triUAB s ≤ 0 ∧ triVBC s ≤ 0))
    (hnAB : ¬(triUAB s > 0 ∧ triVAB s > 0 ∧ triWABC s ≤ 0)) :
    (s.evolveTriangle).count = 1 ∧
    (s.evolveTriangle).v0.p = s.v2.p ∧
    (s.evolveTriangle).v0.a = s.v2.a ∧
    (s.evolveTriangle).v0.b = s.v2.b ∧
    (s.evolveTriangle).v0.indexA = s.v2.indexA ∧
    (s.evolveTriangle).v0.indexB = s.v2.indexB := by
  simp only [triUAB, triVAB, triUBC, triVBC, triUCA, triVCA, triWABC,
    triArea] at huBC hvCA hnA hnB hnAB
  have hnBC : ¬(Dot s.v2.p (s.v2.p.Sub s.v1.p) > 0 ∧
      Dot s.v1.p.Neg (s.v2.p.Sub s.v1.p) > 0 ∧
      Cross s.v1.p s.v2.p * Cross (s.v1.p.Sub s.v0.p) (s.v2.p.Sub s.v0.p) ≤ 0) :=
    fun h => absurd h.1 (not_lt.mpr huBC)
  have hnCA : ¬(Dot s.v0.p (s.v0.p.Sub s.v2.p) > 0 ∧
      Dot s.v2.p.Neg (s.v0.p.Sub s.v2.p) > 0 ∧
      Cross s.v2.p s.v0.p * Cross (s.v1.p.Sub s.v0.p) (s.v2.p.Sub s.v0.p) ≤ 0) :=
    fun h => absurd h.2.1 (not_lt.mpr hvCA)
  have hC : Dot s.v2.p (s.v2.p.Sub s.v1.p) ≤ 0 ∧ Dot s.v2.p.Neg (s.v0.p.Sub s.v2.p) ≤ 0 :=
    ⟨huBC, hvCA⟩
  simp only [Simplex.evolveTriangle, if_neg hnA, if_neg hnB, if_pos hC, if_neg hnAB,
    if_neg hnBC, if_neg hnCA]
  simp

/-- Claim C5 witness: the amended statement applied to the proper triangle
a = (-1,2), b = (1,2), c = (0,1) whose origin lies in C's Voronoi region. -/
theorem c5_amended_witness :
    (triRegionC.evolveTriangle).count = 1 ∧
    (triRegionC.evolveTriangle).v0.p = triRegionC.v2.p ∧
    (triRegionC.evolveTriangle).v0.a = triRegionC.v2.a ∧
    (triRegionC.evolveTriangle).v0.b = triRegionC.v2.b ∧
    (triRegionC.evolveTriangle).v0.indexA = triRegionC.v2.indexA ∧
    (triRegionC.evolveTriangle).v0.indexB = triRegionC.v2.indexB :=
  c5_amended triRegionC rfl
    (by simp only [triUBC, triRegionC, vertex.zero, Dot, Point.Sub]; norm_num)
    (by simp only [triVCA, triRegionC, vertex.zero, Dot, Point.Sub, Point.Neg]; norm_num)
    (by simp only [triVAB, triUCA, triRegionC, vertex.zero, Dot, Point.Sub, Point.Neg]
        norm_num)
    (by simp only [triUAB, triVBC, triRegionC, vertex.zero, Dot, Point.Sub, Point.Neg]
        norm_num)
    (by simp only [triUAB, triVAB, triWABC, triArea, triRegionC, vertex.zero, Dot, Cross,
          Point.Sub, Point.Neg]
        norm_num)

/-- Evaluation helper: on two circles centered (0,0) and (3,0) under
identity transforms, GJK seeds with the center pair, immediately finds the
duplicate support (0, 0), and stops; `Distance` is the center distance 3 —
the circle radii never enter the computation. -/
theorem distanceCirclesEval (fuel : Nat) :
    Distance (fuel + 1) (.circle ⟨⟨0, 0⟩, 1⟩) idTransform (.circle ⟨⟨3, 0⟩, 1⟩)
      idTransform = some 3 := by
  have h9 : Real.sqrt (9 : ℝ) = 3 := sqrtEval (by norm_num) (by norm_num)
  simp only [Distance, Simplex.GJK, Simplex.zero, vertex.zero, gjkRun, gjkStep,
    Simplex.pairs, Simplex.evolve, Simplex.searchDirection, Simplex.ClosestPoint,
    Shape.getSupport, Shape.getVertex, idTransform, Transform.Mul, Rotation.Mul,
    Rotation.MulT, Point.Add, Point.Sub, Point.Neg, Point.Mul, Point.Length,
    Point.LengthSquared, Dot, Cross, CrossPS, CrossSP]
  norm_num [h9]

/-- Claim C1 counterexample: for two circles of radius 1 centered (0,0) and
(3,0) under identity transforms, `Distance` returns 3 (the distance between
the centers), which is not within 1e-4 of the claimed value 1.0. -/
theorem c1_distance_is_center_distance :
    Distance 1 (.circle ⟨⟨0, 0⟩, 1⟩) idTransform (.circle ⟨⟨3, 0⟩, 1⟩) idTransform =
      some 3 ∧ ¬(|(3 : ℝ) - 1| ≤ 1e-4) :=
  ⟨distanceCirclesEval 0, by norm_num⟩

/-- Claim C1 amended: in the same scenario `Distance` returns 3.0 — GJK
treats a circle as its center point and ignores the radius — while
`Collide` returns no collision as claimed (9 > (1+1)²). -/
theorem c1_amended :
    (∀ fuel, Distance (fuel + 1) (.circle ⟨⟨0, 0⟩, 1⟩) idTransform
      (.circle ⟨⟨3, 0⟩, 1⟩) idTransform = some 3) ∧
    Collide (.circle ⟨⟨0, 0⟩, 1⟩) idTransform (.circle ⟨⟨3, 0⟩, 1⟩) idTransform = none := by
  refine ⟨distanceCirclesEval, ?_⟩
  show CollideCircles _ _ _ _ = none
  simp only [CollideCircles, idTransform, Point.Add, Point.Sub, Point.LengthSquared]
  norm_num

/-- A point with zero squared length is the origin. -/
theorem point_lengthSquared_eq_zero {p : Point} (h : p.LengthSquared = 0) :
    p = (⟨0, 0⟩ : Point) := by
  unfold Point.LengthSquared at h
  have hx : p.X * p.X = 0 :=
    le_antisymm (by nlinarith [mul_self_nonneg p.Y]) (mul_self_nonneg p.X)
  have hy : p.Y * p.Y = 0 := by linarith [mul_self_nonneg p.X]
  cases p
  simp only [Point.mk.injEq]
  exact ⟨mul_self_eq_zero.mp hx, mul_self_eq_zero.mp hy⟩

/-- Symmetry of `Collide` for two circles whose computed world centers
differ: swapping the arguments negates n and keeps d and r, so the two
normals are exact negatives and the depths agree. -/
theorem circlesSymmetric (ca cb : Circle) (xfa xfb : Transform)
    (h : (xfb.Position.Add cb.Center).Sub (xfa.Position.Add ca.Center) ≠ (⟨0, 0⟩ : Point)) :
    CollideSymmetricAt (.circle ca) xfa (.circle cb) xfb := by
  have hrev : (xfa.Position.Add ca.Center).Sub (xfb.Position.Add cb.Center)
      = ((xfb.Position.Add cb.Center).Sub (xfa.Position.Add ca.Center)).Neg := by
    simp only [Point.Add, Point.Sub, Point.Neg, Point.mk.injEq]
    constructor <;> ring
  set n := (xfb.Position.Add cb.Center).Sub (xfa.Position.Add ca.Center) with hn
  have hLS : (n.Neg).LengthSquared = n.LengthSquared := by
    simp only [Point.Neg, Point.LengthSquared]
    ring
  have hd : n.LengthSquared ≠ 0 := fun h0 => h (point_lengthSquared_eq_zero h0)
  have hr : cb.Radius + ca.Radius = ca.Radius + cb.Radius := add_comm _ _
  simp only [CollideSymmetricAt, Collide, CollideCircles]
  rw [hrev, hLS, hr, ← hn]
  by_cases hgt : n.LengthSquared > (ca.Radius + cb.Radius) * (ca.Radius + cb.Radius)
  · rw [if_pos hgt, if_pos hgt]
    exact trivial
  · rw [if_neg hgt, if_neg hgt, if_pos hd, if_pos hd]
    refine ⟨rfl, ?_, ?_⟩ <;>
      simp only [Point.Neg, Point.Div] <;>
      rw [show ∀ x d : ℝ, x / d + -x / d = 0 by intro x d; ring] <;>
      norm_num

/-- Symmetry of `Collide` for a circle against a polygon: the circle-first
call is by definition the polygon-first call with the normal negated. -/
theorem circlePolygonSymmetric (ca : Circle) (pb : Polygon) (xfa xfb : Transform) :
    CollideSymmetricAt (.circle ca) xfa (.polygon pb) xfb := by
  simp only [CollideSymmetricAt, Collide, CollideCircleAndPolygon]
  cases CollidePolygonAndCircle pb xfb ca xfa with
  | none => exact trivial
  | some col =>
    refine ⟨rfl, ?_, ?_⟩ <;> simp only [Option.map, Point.Neg] <;> norm_num

/-- Symmetry of `Collide` for a polygon against a circle (the mirror of
`circlePolygonSymmetric`). -/
theorem polygonCircleSymmetric (pa : Polygon) (cb : Circle) (xfa xfb : Transform) :
    CollideSymmetricAt (.polygon pa) xfa (.circle cb) xfb := by
  simp only [CollideSymmetricAt, Collide, CollideCircleAndPolygon]
  cases CollidePolygonAndCircle pa xfa cb xfb with
  | none => exact trivial
  | some col =>
    refine ⟨rfl, ?_, ?_⟩ <;> simp only [Option.map, Point.Neg] <;> norm_num

/-- Symmetry of `Collide` for two polygons with distinct maximum
separations: both calls then pick the same reference polygon and edge and
run the identical clipping, one of them negating the normal at the end. -/
theorem polygonsSymmetric (pa pb : Polygon) (xfa xfb : Transform)
    (h : (findMaxSeparation pa xfa pb xfb).2 ≠ (findMaxSeparation pb xfb pa xfa).2) :
    CollideSymmetricAt (.polygon pa) xfa (.polygon pb) xfb := by
  simp only [CollideSymmetricAt, Collide, CollidePolygons]
  set eA := findMaxSeparation pa xfa pb xfb with heA
  set eB := findMaxSeparation pb xfb pa xfa with heB
  by_cases hA : eA.2 ≥ 0
  · rw [if_pos hA]
    by_cases hB : eB.2 ≥ 0
    · rw [if_pos hB]
      exact trivial
    · rw [if_neg hB, if_pos hA]
      exact trivial
  · rw [if_neg hA]
    by_cases hB : eB.2 ≥ 0
    · rw [if_pos hB, if_pos hB]
      exact trivial
    · rw [if_neg hB, if_neg hB, if_neg hA]
      rcases lt_or_gt_of_ne h with hlt | hgt
      · rw [if_pos hlt, if_neg (by linarith : ¬eA.2 > eB.2)]
        cases collidePolygonsPost pb xfb pa xfa eB.1 with
        | none => exact trivial
        | some col =>
          refine ⟨rfl, ?_, ?_⟩ <;> simp only [Option.map, Point.Neg] <;> norm_num
      · rw [if_neg (by linarith : ¬eB.2 > eA.2), if_pos hgt]
        cases collidePolygonsPost pa xfa pb xfb eA.1 with
        | none => exact trivial
        | some col =>
          refine ⟨rfl, ?_, ?_⟩ <;> simp only [Option.map, Point.Neg] <;> norm_num

/-- Claim C7 amended: for circle/polygon shapes, `Collide(A,B)` and
`Collide(B,A)` are both absent or both present with equal depths and
exactly negated normals, except in two degenerate situations the
counterexample exhibits: circle-circle with coinciding computed centers
(both calls return the arbitrary normal (1,0)) and polygon-polygon with
exactly tied maximum separations (both calls keep their first argument as
reference, e.g. two identical polygons). -/
theorem c7_amended (a b : Shape) (xfa xfb : Transform)
    (ha : a.isCircleOrPolygon) (hb : b.isCircleOrPolygon)
    (hx : ¬collideSymBreak a xfa b xfb) :
    CollideSymmetricAt a xfa b xfb := by
  cases a with
  | other support vtx => exact absurd ha (by simp [Shape.isCircleOrPolygon])
  | circle ca =>
    cases b with
    | other support vtx => exact absurd hb (by simp [Shape.isCircleOrPolygon])
    | circle cb => exact circlesSymmetric ca cb xfa xfb (by simpa [collideSymBreak] using hx)
    | polygon pb => exact circlePolygonSymmetric ca pb xfa xfb
  | polygon pa =>
    cases b with
    | other support vtx => exact absurd hb (by simp [Shape.isCircleOrPolygon])
    | circle cb => exact polygonCircleSymmetric pa cb xfa xfb
    | polygon pb => exact polygonsSymmetric pa pb xfa xfb (by simpa [collideSymBreak] using hx)

/-- Claim C7 witness: the amended symmetry holds at two overlapping unit
circles centered (0,0) and (1.5, 0) under identity transforms. -/
theorem c7_amended_witness :
    CollideSymmetricAt (.circle ⟨⟨0, 0⟩, 1⟩) idTransform (.circle ⟨⟨1.5, 0⟩, 1⟩)
      idTransform :=
  c7_amended _ _ _ _ trivial trivial
    (by simp only [collideSymBreak, idTransform, Point.Add, Point.Sub, Point.mk.injEq]
        norm_num)

/-- The vertex list of the unit square. -/
theorem sqUnitPoints :
    sqUnit.Points = [⟨-0.5, -0.5⟩, ⟨0.5, -0.5⟩, ⟨0.5, 0.5⟩, ⟨-0.5, 0.5⟩] := rfl

/-- The precomputed edge normals of the unit square. -/
theorem sqUnitNormals :
    sqUnit.Normals = [⟨0, -1⟩, ⟨1, 0⟩, ⟨0, 1⟩, ⟨-1, 0⟩] := by
  have h1 : Real.sqrt 1 = 1 := Real.sqrt_one
  have hr : List.range 4 = [0, 1, 2, 3] := rfl
  simp only [sqUnit, NewPolygon, hr, List.map, newPolygonNormal]
  norm_num [Point.Normalize, Point.Length, Point.Div, CrossPS, Point.Sub, h1]

/-- `findMaxSeparation` of the unit square against itself under identity
transforms: every edge sees a deepest point at distance -1; the first edge
wins the strict-improvement scan. -/
theorem fmsSquareEval :
    findMaxSeparation sqUnit idTransform sqUnit idTransform = (0, -1) := by
  have hr : List.range sqUnit.Points.length = [0, 1, 2, 3] := rfl
  simp only [findMaxSeparation, hr, findMaxSeparationAux, fmsDeepest, sqUnitPoints,
    sqUnitNormals, idTransform, Transform.Mul, Transform.MulT, Rotation.Mul, Rotation.MulT,
    Point.Add, Point.Sub, Dot, maxFloat64, List.getD]
  norm_num

/-- `collidePolygonsPost` of the unit square against itself at reference
edge 0: the incident edge is the top edge, both clips keep two points, and
the accumulated overlap is 1 with normal (0, -1). -/
theorem postSquareEval :
    collidePolygonsPost sqUnit idTransform sqUnit idTransform 0 =
      some ⟨⟨0, -1⟩, 1⟩ := by
  have h1 : Real.sqrt 1 = 1 := Real.sqrt_one
  have hinc : findIncidentEdge sqUnit idTransform sqUnit idTransform 0 =
      (⟨0.5, 0.5⟩, ⟨-0.5, 0.5⟩) := by
    simp only [findIncidentEdge]
    rw [sqUnitNormals, sqUnitPoints]
    simp only [idTransform, Transform.Mul, Rotation.Mul, Rotation.MulT, Point.Add, Dot,
      incidentLoop, maxFloat64, List.getD]
    norm_num
  simp only [collidePolygonsPost]
  rw [hinc, sqUnitPoints]
  simp only [idTransform, Transform.Mul, Rotation.Mul, Point.Add, Point.Sub, Point.Neg,
    Point.Normalize, Point.Length, Point.Div, Point.Mul, CrossPS, Dot, clip, updOut,
    List.getD, Int.toNat_zero]
  norm_num [h1]

/-- Claim C7 counterexample: symmetry fails at two concrete inputs.  For two
coinciding unit circles both calls return the arbitrary normal (1, 0), and
for two identical unit squares both calls return the normal (0, -1); in
both cases the normals are equal, not negatives of each other (their sum
has a component of magnitude 2 > 1e-6). -/
theorem c7_collide_not_antisymmetric :
    ¬CollideSymmetricAt (.circle ⟨⟨0, 0⟩, 1⟩) idTransform (.circle ⟨⟨0, 0⟩, 1⟩)
        idTransform ∧
    ¬CollideSymmetricAt (.polygon sqUnit) idTransform (.polygon sqUnit) idTransform := by
  constructor
  · have hcc : CollideCircles ⟨⟨0, 0⟩, 1⟩ idTransform ⟨⟨0, 0⟩, 1⟩ idTransform =
        some ⟨⟨1, 0⟩, -2⟩ := by
      simp only [CollideCircles, idTransform, Point.Add, Point.Sub, Point.LengthSquared]
      norm_num [Real.sqrt_zero]
    simp only [CollideSymmetricAt, Collide, hcc]
    norm_num
  · have hpp : CollidePolygons sqUnit idTransform sqUnit idTransform =
        some ⟨⟨0, -1⟩, 1⟩ := by
      simp only [CollidePolygons, fmsSquareEval, postSquareEval]
      norm_num
    simp only [CollideSymmetricAt, Collide, hpp]
    norm_num

/-- The root finder stays inside [0, 1]: the bisection probe is the
midpoint of the bracket and the secant probe is a convex combination of
the bracket ends, because the bracket invariant s1 > target ≥ s2 keeps the
secant ratio in [0, 1]. -/
theorem rootAux_mem (fcn : separation) (sweepA sweepB : Sweep) (ia ib : Int) :
    ∀ (k j : Nat) (a1 a2 s1 s2 t2 : ℝ), 0 ≤ a1 → a1 ≤ 1 → 0 ≤ a2 → a2 ≤ 1 →
      0 ≤ t2 → t2 ≤ 1 → toiTarget < s1 → s2 ≤ toiTarget →
      0 ≤ rootAux fcn sweepA sweepB ia ib k j a1 a2 s1 s2 t2 ∧
        rootAux fcn sweepA sweepB ia ib k j a1 a2 s1 s2 t2 ≤ 1 := by
  intro k
  induction k with
  | zero =>
    intro j a1 a2 s1 s2 t2 _ _ _ _ h5 h6 _ _
    exact ⟨h5, h6⟩
  | succ k ih =>
    intro j a1 a2 s1 s2 t2 h1 h2 h3 h4 h5 h6 hs1 hs2
    simp only [rootAux]
    set t := (if j % 2 = 1 then a1 + (toiTarget - s1) * (a2 - a1) / (s2 - s1)
      else 0.5 * (a1 + a2)) with ht
    have htb : 0 ≤ t ∧ t ≤ 1 := by
      rw [ht]
      split
      · have hden : s2 - s1 < 0 := by linarith
        have hr0 : 0 ≤ (toiTarget - s1) / (s2 - s1) := by
          rw [div_nonneg_iff]
          right
          constructor <;> linarith
        have hr1 : (toiTarget - s1) / (s2 - s1) ≤ 1 := by
          rw [div_le_one_iff]
          right
          right
          constructor <;> linarith
        have hform : a1 + (toiTarget - s1) * (a2 - a1) / (s2 - s1)
            = (1 - (toiTarget - s1) / (s2 - s1)) * a1 +
              ((toiTarget - s1) / (s2 - s1)) * a2 := by
          field_simp
          ring
        rw [hform]
        constructor
        · have := mul_nonneg (by linarith : (0:ℝ) ≤ 1 - (toiTarget - s1) / (s2 - s1)) h1
          have := mul_nonneg hr0 h3
          linarith
        · have := mul_le_mul_of_nonneg_left h2
            (by linarith : (0:ℝ) ≤ 1 - (toiTarget - s1) / (s2 - s1))
          have := mul_le_mul_of_nonneg_left h4 hr0
          nlinarith
      · constructor <;> nlinarith
    set sv := fcn.Evaluate ia (sweepA.GetTransform t) ib (sweepB.GetTransform t) with hsv
    by_cases hconv : |sv - toiTarget| < toiTolerance
    · rw [if_pos hconv]
      exact htb
    · rw [if_neg hconv]
      by_cases hgt : sv > toiTarget
      · rw [if_pos hgt]
        exact ih (j + 1) t a2 sv s2 t2 htb.1 htb.2 h3 h4 h5 h6 hgt hs2
      · rw [if_neg hgt]
        exact ih (j + 1) a1 t s1 sv t2 h1 h2 htb.1 htb.2 h5 h6 hs1 (by linarith [not_lt.mp hgt])

/-- The inner advance loop of TOI either returns 1, breaks the outer loop,
or hands back a t1 inside [0, 1]. -/
theorem innerLoop_cases (fcn : separation) (sweepA sweepB : Sweep) :
    ∀ (k : Nat) (t1 t2 : ℝ), 0 ≤ t1 → t1 ≤ 1 → 0 ≤ t2 → t2 ≤ 1 →
      (match innerLoop fcn sweepA sweepB k t1 t2 with
        | .ret r => r = 1
        | .brk => True
        | .cont t1x => 0 ≤ t1x ∧ t1x ≤ 1) := by
  intro k
  induction k with
  | zero =>
    intro t1 t2 h1 h2 _ _
    exact ⟨h1, h2⟩
  | succ k ih =>
    intro t1 t2 h1 h2 h3 h4
    simp only [innerLoop]
    set m := fcn.MinSeparation (sweepA.GetTransform t2) (sweepB.GetTransform t2) with hm
    by_cases hA : m.2.2 > toiTarget + toiTolerance
    · rw [if_pos hA]
    · rw [if_neg hA]
      by_cases hB : m.2.2 > toiTarget - toiTolerance
      · rw [if_pos hB]
        exact ⟨h3, h4⟩
      · rw [if_neg hB]
        set s1v := fcn.Evaluate m.1 (sweepA.GetTransform t1) m.2.1 (sweepB.GetTransform t1)
          with hs1v
        by_cases hC : s1v < toiTarget - toiTolerance
        · rw [if_pos hC]
          trivial
        · rw [if_neg hC]
          by_cases hD : s1v ≤ toiTarget + toiTolerance
          · rw [if_pos hD]
            trivial
          · rw [if_neg hD]
            have htol : (0:ℝ) < toiTolerance := by norm_num [toiTolerance]
            have hroot := rootAux_mem fcn sweepA sweepB m.1 m.2.1 50 0 t1 t2 s1v m.2.2 t2
              h1 h2 h3 h4 h3 h4 (by linarith [not_le.mp hD])
              (by linarith [not_lt.mp hB])
            exact ih t1 _ h1 h2 hroot.1 hroot.2

/-- The outer TOI loop only ever returns values in [0, 1], given that its
running t1 is. -/
theorem outerLoop_mem (gjkFuel : Nat) (a : Shape) (sweepA : Sweep) (b : Shape)
    (sweepB : Sweep) :
    ∀ (k : Nat) (t1 : ℝ) (cache : SimplexCache) (simplex : Simplex), 0 ≤ t1 → t1 ≤ 1 →
      ∀ t, outerLoop gjkFuel a sweepA b sweepB k t1 cache simplex = some t →
        0 ≤ t ∧ t ≤ 1 := by
  intro k
  induction k with
  | zero =>
    intro t1 cache simplex h1 h2 t ht
    simp only [outerLoop, Option.some.injEq] at ht
    rw [← ht]
    exact ⟨h1, h2⟩
  | succ k ih =>
    intro t1 cache simplex h1 h2 t ht
    simp only [outerLoop] at ht
    set s0 := (simplex.ReadCache cache a (sweepA.GetTransform t1) b (sweepB.GetTransform t1))
      with hs0
    cases hg : s0.GJK gjkFuel a (sweepA.GetTransform t1) b (sweepB.GetTransform t1) with
    | none =>
      rw [hg] at ht
      cases ht
    | some s1 =>
      rw [hg] at ht
      simp only at ht
      by_cases hd0 : s1.ClosestPoint.Length ≤ 0
      · rw [if_pos hd0, Option.some.injEq] at ht
        rw [← ht]
        norm_num
      · rw [if_neg hd0] at ht
        by_cases hd1 : s1.ClosestPoint.Length < toiTarget + toiTolerance
        · rw [if_pos hd1, Option.some.injEq] at ht
          rw [← ht]
          exact ⟨h1, h2⟩
        · rw [if_neg hd1] at ht
          have hin := innerLoop_cases ((newSeparation a b).init (s1.WriteCache cache)
            (sweepA.GetTransform t1) (sweepB.GetTransform t1)) sweepA sweepB 20 t1 1
            h1 h2 (by norm_num) (by norm_num)
          cases hi : innerLoop ((newSeparation a b).init (s1.WriteCache cache)
              (sweepA.GetTransform t1) (sweepB.GetTransform t1)) sweepA sweepB 20 t1 1 with
          | ret r =>
            rw [hi] at ht hin
            simp only [Option.some.injEq] at ht
            rw [← ht, hin]
            norm_num
          | brk =>
            rw [hi] at ht
            simp only [Option.some.injEq] at ht
            rw [← ht]
            exact ⟨h1, h2⟩
          | cont t1x =>
            rw [hi] at ht hin
            simp only at ht
            exact ih t1x (s1.WriteCache cache) s1 hin.1 hin.2 t ht

/-- Claim C3: whatever the shapes, the caller-supplied simplex and the
sweeps, when `TimeOfImpact` returns a value it lies in [0, 1]. -/
theorem c3_toi_in_unit_interval (gjkFuel : Nat) (simplex : Simplex) (a : Shape)
    (sweepA : Sweep) (b : Shape) (sweepB : Sweep) (t : ℝ)
    (h : TimeOfImpact gjkFuel simplex a sweepA b sweepB = some t) : 0 ≤ t ∧ t ≤ 1 :=
  outerLoop_mem gjkFuel a sweepA b sweepB 100 0 emptyCache simplex (le_refl 0)
    (by norm_num) t h

/-- Both witness sweeps are constant in time. -/
theorem sweepZeroTransform (t : ℝ) : sweepZero.GetTransform t = idTransform := by
  simp only [sweepZero, Sweep.GetTransform, NewTransform, NewRotation, Point.Mul, Point.Add,
    idTransform, Transform.mk.injEq, Point.mk.injEq, Rotation.mk.injEq]
  rw [show (0 * (1 - t) + 0 * t : ℝ) = 0 by ring]
  refine ⟨⟨by ring, by ring⟩, Real.sin_zero, Real.cos_zero⟩

/-- The second witness sweep is the constant transform at (5, 0). -/
theorem sweepFiveTransform (t : ℝ) :
    sweepFive.GetTransform t = (⟨⟨5, 0⟩, ⟨0, 1⟩⟩ : Transform) := by
  simp only [sweepFive, Sweep.GetTransform, NewTransform, NewRotation, Point.Mul, Point.Add,
    Transform.mk.injEq, Point.mk.injEq, Rotation.mk.injEq]
  rw [show (0 * (1 - t) + 0 * t : ℝ) = 0 by ring]
  refine ⟨⟨by ring, by ring⟩, Real.sin_zero, Real.cos_zero⟩

/-- One-step reduction of the inner loop when the final configuration is
already separated beyond target + tolerance. -/
theorem innerLoop_ret (fcn : separation) (sweepA sweepB : Sweep) (k : Nat) (t1 t2 : ℝ)
    (h : (fcn.MinSeparation (sweepA.GetTransform t2) (sweepB.GetTransform t2)).2.2 >
      toiTarget + toiTolerance) :
    innerLoop fcn sweepA sweepB (k + 1) t1 t2 = .ret 1 := by
  simp only [innerLoop]
  rw [if_pos h]

/-- One-step reduction of the outer loop when GJK succeeds, the distance is
beyond target + tolerance, and the inner loop returns. -/
theorem outerLoop_ret (gjkFuel k : Nat) (a : Shape) (sweepA : Sweep) (b : Shape)
    (sweepB : Sweep) (t1 r : ℝ) (cache : SimplexCache) (simplex : Simplex) (s1 : Simplex)
    (hg : (simplex.ReadCache cache a (sweepA.GetTransform t1) b
        (sweepB.GetTransform t1)).GJK gjkFuel a (sweepA.GetTransform t1) b
        (sweepB.GetTransform t1) = some s1)
    (hd0 : ¬s1.ClosestPoint.Length ≤ 0)
    (hd1 : ¬s1.ClosestPoint.Length < toiTarget + toiTolerance)
    (hret : innerLoop ((newSeparation a b).init (s1.WriteCache cache)
        (sweepA.GetTransform t1) (sweepB.GetTransform t1)) sweepA sweepB 20 t1 1 =
        .ret r) :
    outerLoop gjkFuel a sweepA b sweepB (k + 1) t1 cache simplex = some r := by
  simp only [outerLoop]
  rw [hg]
  simp only
  rw [if_neg hd0, if_neg hd1, hret]

/-- Evaluation of `TimeOfImpact` for two stationary circles 5 apart: the
first outer round finds distance 5, builds the point-point axis (1, 0), and
the first inner round sees separation 5 beyond the target, returning 1. -/
theorem toiCirclesEval :
    TimeOfImpact 1 Simplex.zero (.circle ⟨⟨0, 0⟩, 1⟩) sweepZero (.circle ⟨⟨0, 0⟩, 1⟩)
      sweepFive = some 1 := by
  have h25 : Real.sqrt (25 : ℝ) = 5 := sqrtEval (by norm_num) (by norm_num)
  set A : Shape := .circle ⟨⟨0, 0⟩, 1⟩ with hA
  set xf5 : Transform := ⟨⟨5, 0⟩, ⟨0, 1⟩⟩ with hxf5
  set sRes : Simplex := ⟨1, ⟨⟨0, 0⟩, ⟨0, 0⟩, ⟨5, 0⟩, 1, 0, 0⟩, vertex.zero, vertex.zero⟩
    with hsRes
  have hgjk : (Simplex.zero.ReadCache emptyCache A idTransform A xf5).GJK 1 A idTransform
      A xf5 = some sRes := by
    rw [show (1 : Nat) = 0 + 1 from rfl]
    simp only [hA, hxf5, hsRes, Simplex.ReadCache, emptyCache, Simplex.zero, Simplex.GJK,
      gjkRun, gjkStep, Simplex.pairs, Simplex.evolve, Simplex.searchDirection,
      Shape.getSupport, Shape.getVertex, idTransform, Transform.Mul, Rotation.Mul,
      Rotation.MulT, Point.Add, Point.Sub, Point.Neg, Point.LengthSquared, Dot, Cross,
      CrossSP, CrossPS, vertex.zero]
    norm_num [Simplex.mk.injEq, vertex.mk.injEq, Point.mk.injEq]
  have hdist : sRes.ClosestPoint.Length = 5 := by
    simp only [hsRes, Simplex.ClosestPoint, Point.Length]
    norm_num [h25]
  have hwc : sRes.WriteCache emptyCache = ⟨0, 1, 0, 0, 0, 0, 0, 0⟩ := by
    simp only [hsRes, Simplex.WriteCache, Simplex.Metric, emptyCache]
    norm_num
  have hfcn : (newSeparation A A).init (sRes.WriteCache emptyCache) idTransform xf5
      = ⟨.axisPoints, A, A, ⟨1, 0⟩, ⟨0, 0⟩⟩ := by
    rw [hwc]
    simp only [hA, hxf5, newSeparation, separation.init, Shape.getVertex, idTransform,
      Transform.Mul, Rotation.Mul, Point.Add, Point.Sub, Point.Normalize, Point.Length,
      Point.Div, separation.mk.injEq, Point.mk.injEq]
    norm_num [h25]
  have hmin : ((⟨.axisPoints, A, A, ⟨1, 0⟩, ⟨0, 0⟩⟩ : separation).MinSeparation
      (sweepZero.GetTransform 1) (sweepFive.GetTransform 1)).2.2 >
      toiTarget + toiTolerance := by
    rw [sweepZeroTransform, sweepFiveTransform]
    simp only [hA, hxf5, separation.MinSeparation, Shape.getSupport, Shape.getVertex,
      idTransform, Transform.Mul, Rotation.Mul, Rotation.MulT, Point.Add, Point.Sub,
      Point.Neg, Dot, toiTarget, toiTolerance]
    norm_num
  unfold TimeOfImpact
  rw [show (100 : Nat) = 99 + 1 from rfl]
  refine outerLoop_ret 1 99 A sweepZero A sweepFive 0 1 emptyCache Simplex.zero sRes ?_ ?_ ?_ ?_
  · rw [sweepZeroTransform, sweepFiveTransform]
    exact hgjk
  · rw [hdist]
    norm_num
  · rw [hdist]
    norm_num [toiTarget, toiTolerance]
  · rw [sweepZeroTransform, sweepFiveTransform, hfcn, show (20 : Nat) = 19 + 1 from rfl]
    exact innerLoop_ret _ sweepZero sweepFive 19 0 1 hmin

/-- Claim C3 witness: the bracket theorem applied to the concrete stationary
run above, whose returned value is 1. -/
theorem c3_toi_in_unit_interval_witness : (0 : ℝ) ≤ 1 ∧ (1 : ℝ) ≤ 1 :=
  c3_toi_in_unit_interval 1 Simplex.zero (.circle ⟨⟨0, 0⟩, 1⟩) sweepZero
    (.circle ⟨⟨0, 0⟩, 1⟩) sweepFive 1 toiCirclesEval

/-- Swapping the shape roles negates every Minkowski-difference quantity;
these small facts drive the mirror argument below. -/
theorem smirror_count (s : Simplex) : (smirror s).count = s.count := rfl

/-- Mirror projection: vertex 0. -/
theorem smirror_v0 (s : Simplex) : (smirror s).v0 = vmirror s.v0 := rfl

/-- Mirror projection: vertex 1. -/
theorem smirror_v1 (s : Simplex) : (smirror s).v1 = vmirror s.v1 := rfl

/-- Mirror projection: vertex 2. -/
theorem smirror_v2 (s : Simplex) : (smirror s).v2 = vmirror s.v2 := rfl

/-- evolveLine commutes with the A/B mirror. -/
theorem evolveLine_mirror (s : Simplex) : (smirror s).evolveLine = smirror s.evolveLine := by
  simp only [Simplex.evolveLine, smirror_v0, smirror_v1]
  have h1 : Dot (vmirror s.v0).p.Neg ((vmirror s.v1).p.Sub (vmirror s.v0).p)
      = Dot s.v0.p.Neg (s.v1.p.Sub s.v0.p) := by
    simp only [vmirror, Dot, Point.Neg, Point.Sub]
    ring
  have h2 : Dot (vmirror s.v1).p ((vmirror s.v1).p.Sub (vmirror s.v0).p)
      = Dot s.v1.p (s.v1.p.Sub s.v0.p) := by
    simp only [vmirror, Dot, Point.Neg, Point.Sub]
    ring
  have h3 : ((vmirror s.v1).p.Sub (vmirror s.v0).p).LengthSquared
      = (s.v1.p.Sub s.v0.p).LengthSquared := by
    simp only [vmirror, Point.LengthSquared, Point.Neg, Point.Sub]
    ring
  rw [h1, h2, h3]
  split_ifs <;> simp [smirror, vmirror]

/-- searchDirection is negated by the A/B mirror. -/
theorem searchDirection_mirror (s : Simplex) :
    (smirror s).searchDirection = s.searchDirection.Neg := by
  simp only [Simplex.searchDirection, smirror_count, smirror_v0, smirror_v1]
  have h1 : Cross ((vmirror s.v1).p.Sub (vmirror s.v0).p) (vmirror s.v0).p.Neg
      = Cross (s.v1.p.Sub s.v0.p) s.v0.p.Neg := by
    simp only [vmirror, Cross, Point.Neg, Point.Sub]
    ring
  rw [h1]
  split_ifs <;>
    simp only [vmirror, CrossSP, CrossPS, Point.Neg, Point.Sub, Point.mk.injEq] <;>
    constructor <;> ring

/-- ClosestPoint is negated by the A/B mirror. -/
theorem closestPoint_mirror (s : Simplex) :
    (smirror s).ClosestPoint = s.ClosestPoint.Neg := by
  simp only [Simplex.ClosestPoint, smirror_count, smirror_v0, smirror_v1]
  split_ifs <;>
    simp only [vmirror, Point.Neg, Point.Mul, Point.Add, Point.mk.injEq] <;>
    constructor <;> ring

/-- The Euclidean length is invariant under the A/B mirror of the simplex. -/
theorem closestPoint_mirror_length (s : Simplex) :
    (smirror s).ClosestPoint.Length = s.ClosestPoint.Length := by
  rw [closestPoint_mirror]
  simp only [Point.Length, Point.Neg]
  ring_nf

/-- Double negation of a point. -/
theorem point_negneg (x : Point) : x.Neg.Neg = x := by
  simp [Point.Neg]

/-- Subtraction of negated points. -/
theorem point_sub_neg_neg (x y : Point) : x.Neg.Sub y.Neg = (x.Sub y).Neg := by
  simp only [Point.Neg, Point.Sub, Point.mk.injEq]
  constructor <;> ring

/-- Dot of two negated points. -/
theorem dot_neg_neg (x y : Point) : Dot x.Neg y.Neg = Dot x y := by
  simp only [Point.Neg, Dot]
  ring

/-- A negation can be moved to the other side of a dot product. -/
theorem dot_neg_right (x y : Point) : Dot x y.Neg = Dot x.Neg y := by
  simp only [Point.Neg, Dot]
  ring

/-- Cross of two negated points. -/
theorem cross_neg_neg (x y : Point) : Cross x.Neg y.Neg = Cross x y := by
  simp only [Point.Neg, Cross]
  ring

/-- Squared length of a negated point. -/
theorem ls_neg (x : Point) : x.Neg.LengthSquared = x.LengthSquared := by
  simp only [Point.Neg, Point.LengthSquared]
  ring

/-- Mirror projection: the Minkowski point gets negated. -/
theorem vmirror_p (v : vertex) : (vmirror v).p = v.p.Neg := rfl

/-- evolveTriangle commutes with the A/B mirror: all its dot products,
crossed areas and barycentric quantities are invariant under negating every
Minkowski point, so the same branch fires and produces the mirrored result. -/
theorem evolveTriangle_mirror (s : Simplex) :
    (smirror s).evolveTriangle = smirror s.evolveTriangle := by
  simp only [Simplex.evolveTriangle, smirror_v0, smirror_v1, smirror_v2, vmirror_p,
    point_sub_neg_neg, point_negneg, dot_neg_neg, dot_neg_right, cross_neg_neg, ls_neg,
    apply_ite smirror]
  split_ifs <;> simp [smirror, vmirror]

/-- evolve commutes with the A/B mirror. -/
theorem evolve_mirror (s : Simplex) : (smirror s).evolve = smirror s.evolve := by
  simp only [Simplex.evolve, smirror_count, apply_ite smirror]
  split_ifs <;> first
    | rfl
    | exact evolveLine_mirror s
    | exact evolveTriangle_mirror s

/-- pairs maps to the swapped pairs under the A/B mirror. -/
theorem pairs_mirror (s : Simplex) :
    (smirror s).pairs = s.pairs.map (fun q => (q.2, q.1)) := by
  simp only [Simplex.pairs, smirror_count, smirror_v0, smirror_v1, smirror_v2]
  split_ifs <;> simp [vmirror]

/-- append commutes with the A/B mirror. -/
theorem append_mirror (s : Simplex) (w : vertex) :
    (smirror s).append (vmirror w) = smirror (s.append w) := by
  simp only [Simplex.append, smirror_count, apply_ite smirror]
  split_ifs <;> simp [smirror, vmirror]

/-- Membership in a component-swapped pair list. -/
theorem mem_swap_map (x y : Int) (l : List (Int × Int)) :
    ((x, y) ∈ l.map fun q => (q.2, q.1)) ↔ (y, x) ∈ l := by
  rw [List.mem_map]
  constructor
  · rintro ⟨⟨u, v⟩, hm, he⟩
    obtain ⟨h1, h2⟩ := Prod.mk.injEq .. ▸ he
    simp only [Prod.mk.injEq] at he
    rw [← he.1, ← he.2]
    exact hm
  · intro hm
    exact ⟨(y, x), hm, rfl⟩

/-- The support vertex constructed by the mirrored run is the mirror of the
original support vertex. -/
theorem supportVertex_mirror (va vb : Point) (iA iB : Int) (xfa xfb : Transform) :
    (⟨vb, va, (xfa.Mul va).Sub (xfb.Mul vb), 1, iB, iA⟩ : vertex) =
      vmirror ⟨va, vb, (xfb.Mul vb).Sub (xfa.Mul va), 1, iA, iB⟩ := by
  simp only [vmirror, vertex.mk.injEq, Point.Neg, Point.Sub, Point.mk.injEq, and_true,
    true_and]
  constructor <;> ring

/-- One GJK loop step of the swapped run is the mirror of the original
step: the search direction flips sign, so the two per-shape support queries
swap roles, and the duplicate test sees the swapped index pairs. -/
theorem gjkStep_mirror (a : Shape) (xfa : Transform) (b : Shape) (xfb : Transform)
    (s : Simplex) :
    gjkStep b xfb a xfa (smirror s) = gmirror (gjkStep a xfa b xfb s) := by
  simp only [gjkStep]
  simp only [pairs_mirror, evolve_mirror, smirror_count]
  simp only [searchDirection_mirror, ls_neg, point_negneg]
  simp only [mem_swap_map]
  split_ifs
  · rfl
  · rfl
  · rfl
  · simp only [gmirror]
    rw [← append_mirror]
    exact congrArg (fun w => GJKStep.next ((smirror s.evolve).append w))
      (supportVertex_mirror _ _ _ _ _ _)

/-- The whole GJK loop of the swapped run mirrors the original run, fuel
for fuel. -/
theorem gjkRun_mirror (a : Shape) (xfa : Transform) (b : Shape) (xfb : Transform) :
    ∀ (n : Nat) (s : Simplex),
      gjkRun b xfb a xfa n (smirror s) = (gjkRun a xfa b xfb n s).map smirror := by
  intro n
  induction n with
  | zero => intro s; rfl
  | succ k ih =>
    intro s
    simp only [gjkRun, gjkStep_mirror]
    cases gjkStep a xfa b xfb s with
    | done s1 => rfl
    | next s1 => exact ih s1

/-- The zero simplex is its own mirror. -/
theorem smirror_zero : smirror Simplex.zero = Simplex.zero := by
  simp only [smirror, vmirror, Simplex.zero, vertex.zero, Point.Neg, Simplex.mk.injEq,
    vertex.mk.injEq, Point.mk.injEq]
  norm_num

/-- Claim C6: `Distance` is symmetric in its two shape/transform pairs —
exactly, not merely within 1e-6 — because the swapped run is the mirror
image of the original run (every Minkowski point negated, every index pair
swapped) and the final length is invariant under negation. -/
theorem c6_distance_symmetric (fuel : Nat) (a : Shape) (xfa : Transform) (b : Shape)
    (xfb : Transform) : Distance fuel b xfb a xfa = Distance fuel a xfa b xfb := by
  unfold Distance Simplex.GJK
  have hseed : (if Simplex.zero.count = 0 then
      { Simplex.zero with count := 1, v0 := ⟨b.getVertex 0, a.getVertex 0,
        (xfa.Mul (a.getVertex 0)).Sub (xfb.Mul (b.getVertex 0)), 1, 0, 0⟩ }
      else Simplex.zero) = smirror (if Simplex.zero.count = 0 then
      { Simplex.zero with count := 1, v0 := ⟨a.getVertex 0, b.getVertex 0,
        (xfb.Mul (b.getVertex 0)).Sub (xfa.Mul (a.getVertex 0)), 1, 0, 0⟩ }
      else Simplex.zero) := by
    simp only [Simplex.zero, reduceIte, smirror, vmirror, vertex.zero, Point.Neg,
      Point.Sub, Simplex.mk.injEq, vertex.mk.injEq, Point.mk.injEq]
    norm_num
  rw [hseed, gjkRun_mirror, Option.map_map]
  cases gjkRun a xfa b xfb fuel _ with
  | none => rfl
  | some s1 => simpa using closestPoint_mirror_length s1

/-- Cauchy–Schwarz in the plane. -/
theorem dot_sq_le (u v : Point) : Dot u v * Dot u v ≤ Dot u u * Dot v v := by
  simp only [Dot]
  nlinarith [sq_nonneg (u.X * v.Y - u.Y * v.X)]

/-- Dot of a point with itself is nonnegative. -/
theorem dot_self_nonneg (v : Point) : 0 ≤ Dot v v := by
  simp only [Dot]
  nlinarith [sq_nonneg v.X, sq_nonneg v.Y]

/-- Hull membership is monotone in the generator list. -/
theorem inConv_mono {ps qs : List Point} (h : ∀ p ∈ ps, p ∈ qs) {x : Point}
    (hx : InConv ps x) : InConv qs x := by
  induction hx with
  | base hq => exact .base (h _ hq)
  | mix t h0 h1 _ _ ihx ihy => exact .mix t h0 h1 ihx ihy

/-- A certified point has dot product at least |v|² with every hull point. -/
theorem cert_dot_ge {v : Point} {ps : List Point} (hc : IsCert v ps) {x : Point}
    (hx : InConv ps x) : Dot v v ≤ Dot v x := by
  induction hx with
  | base hq => exact hc _ hq
  | mix t h0 h1 _ _ ihx ihy =>
    rename_i x y _ _
    have : Dot v ((Point.Mul x (1 - t)).Add (Point.Mul y t))
        = (1 - t) * Dot v x + t * Dot v y := by
      simp only [Dot, Point.Mul, Point.Add]
      ring
    rw [this]
    nlinarith

/-- A certified point minimizes |·|² over the hull. -/
theorem cert_min {v : Point} {ps : List Point} (hc : IsCert v ps) {x : Point}
    (hx : InConv ps x) : Dot v v ≤ Dot x x := by
  have h1 : Dot v v ≤ Dot v x := cert_dot_ge hc hx
  have h2 := dot_sq_le v x
  have h0 := dot_self_nonneg v
  have h3 := dot_self_nonneg x
  have h4 : Dot v v * Dot v v ≤ Dot v x * Dot v x := mul_self_le_mul_self h0 h1
  nlinarith

/-- A hull point whose squared norm does not exceed a certified point's is
that certified point: the closest point is unique. -/
theorem cert_unique {v : Point} {ps : List Point} (hc : IsCert v ps) {x : Point}
    (hx : InConv ps x) (hle : Dot x x ≤ Dot v v) : x = v := by
  have h1 : Dot v v ≤ Dot v x := cert_dot_ge hc hx
  have hz : (x.Sub v).LengthSquared ≤ 0 := by
    simp only [Point.Sub, Point.LengthSquared, Dot] at *
    nlinarith
  have := point_lengthSquared_eq_zero (le_antisymm hz (by
    simp only [Point.LengthSquared]
    nlinarith [sq_nonneg (x.Sub v).X, sq_nonneg (x.Sub v).Y]))
  cases x
  cases v
  simp only [Point.Sub, Point.mk.injEq] at this ⊢
  constructor <;> linarith [this.1, this.2]

/-- Invariant of the polygon support scan: if the indices below i have been
seen, best is in range with value m, the loop returns an in-range index
whose vertex maximizes `Dot dir` over the whole vertex list. -/
theorem supportLoop_spec (dir : Point) (pts : List Point) :
    ∀ (n i best : Nat) (m : ℝ), pts.length - i = n → i ≤ pts.length →
      best < pts.length → m = Dot dir (pts.getD best ⟨0, 0⟩) →
      (∀ j, j < i → Dot dir (pts.getD j ⟨0, 0⟩) ≤ m) →
      polygonSupportLoop dir (pts.drop i) i best m < pts.length ∧
        ∀ j, j < pts.length →
          Dot dir (pts.getD j ⟨0, 0⟩) ≤
            Dot dir (pts.getD (polygonSupportLoop dir (pts.drop i) i best m) ⟨0, 0⟩) := by
  intro n
  induction n with
  | zero =>
    intro i best m hn hi hb hm hprev
    have hie : i = pts.length := by omega
    have hd0 : pts.drop i = [] := by
      rw [hie]
      exact List.drop_length pts
    rw [hd0]
    simp only [polygonSupportLoop]
    refine ⟨hb, fun j hj => ?_⟩
    rw [← hm]
    exact hprev j (by omega)
  | succ n ih =>
    intro i best m hn hi hb hm hprev
    have hilt : i < pts.length := by omega
    have hq : pts.drop i = pts.getD i ⟨0, 0⟩ :: pts.drop (i + 1) := by
      rw [List.getD_eq_getElem pts ⟨0, 0⟩ hilt]
      exact List.drop_eq_getElem_cons hilt
    rw [hq]
    simp only [polygonSupportLoop]
    by_cases hgt : Dot dir (pts.getD i ⟨0, 0⟩) > m
    · rw [if_pos hgt]
      exact ih (i + 1) i (Dot dir (pts.getD i ⟨0, 0⟩)) (by omega) (by omega) hilt rfl
        (fun j hj => by
          rcases Nat.lt_succ_iff_lt_or_eq.mp hj with h | h
          · exact le_of_lt (lt_of_le_of_lt (hprev j h) hgt)
          · simp [h])
    · rw [if_neg hgt]
      exact ih (i + 1) best m (by omega) (by omega) hb hm
        (fun j hj => by
          rcases Nat.lt_succ_iff_lt_or_eq.mp hj with h | h
          · exact hprev j h
          · rw [h]
            exact le_of_not_lt hgt)

/-- Polygon getSupport returns an in-range index whose vertex maximizes
`Dot dir` over the vertex list. -/
theorem polygon_getSupport_spec (p : Polygon) (dir : Point) (h1 : 1 ≤ p.Points.length) :
    ((Shape.polygon p).getSupport dir).toNat < p.Points.length ∧
      ∀ j, j < p.Points.length →
        Dot dir (p.Points.getD j ⟨0, 0⟩) ≤
          Dot dir (p.Points.getD ((Shape.polygon p).getSupport dir).toNat ⟨0, 0⟩) := by
  have hs := supportLoop_spec dir p.Points (p.Points.length - 1) 1 0
    (Dot dir (p.Points.getD 0 ⟨0, 0⟩)) rfl h1 (by omega) rfl
    (fun j hj => by
      have hj0 : j = 0 := by omega
      simp [hj0])
  simp only [Shape.getSupport, Int.toNat_ofNat]
  exact hs

/-- The comparisons of the support scan are invariant under scaling the
direction by a positive factor. -/
theorem supportLoop_scale (dir : Point) (c : ℝ) (hc : 0 < c) :
    ∀ (l : List Point) (i best : Nat) (m : ℝ),
      polygonSupportLoop (dir.Mul c) l i best (c * m) = polygonSupportLoop dir l i best m := by
  intro l
  induction l with
  | nil =>
    intro i best m
    rfl
  | cons q rest ih =>
    intro i best m
    have hd : Dot (dir.Mul c) q = c * Dot dir q := by
      simp only [Dot, Point.Mul]
      ring
    simp only [polygonSupportLoop, hd]
    by_cases hgt : Dot dir q > m
    · rw [if_pos ((mul_lt_mul_left hc).mpr hgt), if_pos hgt, ih]
    · rw [if_neg (fun hcon => hgt ((mul_lt_mul_left hc).mp hcon)), if_neg hgt, ih]

/-- getSupport is invariant under positive scaling of the direction. -/
theorem getSupport_scale (sh : Shape) (hsh : validShape sh) (d : Point) (c : ℝ)
    (hc : 0 < c) : sh.getSupport (d.Mul c) = sh.getSupport d := by
  cases sh with
  | circle cc => rfl
  | other f g => exact hsh.elim
  | polygon p =>
    simp only [Shape.getSupport]
    have hd : Dot (d.Mul c) (p.Points.getD 0 ⟨0, 0⟩)
        = c * Dot d (p.Points.getD 0 ⟨0, 0⟩) := by
      simp only [Dot, Point.Mul]
      ring
    rw [hd, supportLoop_scale d c hc]

/-- MulT is the adjoint of Mul for rotations. -/
theorem dot_rotation_adjoint (r : Rotation) (d v : Point) :
    Dot d (r.Mul v) = Dot (r.MulT d) v := by
  simp only [Dot, Rotation.Mul, Rotation.MulT]
  ring

/-- Dot against a transformed point splits into a rotated-direction dot
plus a constant position term. -/
theorem dot_transform (xf : Transform) (d v : Point) :
    Dot d (xf.Mul v) = Dot (xf.Rot.MulT d) v + Dot d xf.Position := by
  simp only [Dot, Transform.Mul, Rotation.Mul, Rotation.MulT, Point.Add]
  ring

/-- MulT commutes with scalar multiplication of the argument. -/
theorem mulT_smul (r : Rotation) (x : Point) (c : ℝ) :
    r.MulT (x.Mul c) = (r.MulT x).Mul c := by
  simp only [Rotation.MulT, Point.Mul, Point.mk.injEq]
  constructor <;> ring

/-- MulT commutes with negation of the argument. -/
theorem mulT_neg (r : Rotation) (x : Point) :
    r.MulT x.Neg = (r.MulT x).Neg := by
  simp only [Rotation.MulT, Point.Neg, Point.mk.injEq]
  constructor <;> ring

/-- A live vertex's point is among the simplex's live points. -/
theorem liveVerts_p_mem (s : Simplex) (w : vertex) (hw : w ∈ s.liveVerts) :
    w.p ∈ s.ptsList := by
  simp only [Simplex.liveVerts, Simplex.ptsList] at hw ⊢
  split_ifs at hw ⊢ <;> aesop

/-- vertexOK transfers across sameVert. -/
theorem vertexOK_of_sameVert {a : Shape} {xfa : Transform} {b : Shape} {xfb : Transform}
    {v w : vertex} (hs : sameVert v w) (hw : vertexOK a xfa b xfb w) :
    vertexOK a xfa b xfb v := by
  obtain ⟨h1, h2, h3, h4, h5⟩ := hs
  unfold vertexOK at hw ⊢
  rw [h3, h4, h5]
  exact hw

/-- A one-point simplex is evolveGood relative to itself. -/
theorem evolveGood_refl_one (s : Simplex) (h1 : s.count = 1) : evolveGood s s := by
  refine ⟨Or.inl h1, ⟨s.v0, ?_, ⟨rfl, rfl, rfl, rfl, rfl⟩⟩, ?_, ?_, ?_, ?_⟩
  · simp [Simplex.liveVerts, h1]
  · intro h2
    rw [h1] at h2
    exact absurd h2 (by norm_num)
  · have : s.ClosestPoint = s.v0.p := by simp [Simplex.ClosestPoint, h1]
    rw [this]
    exact .base (by simp [Simplex.ptsList, h1])
  · intro q hq
    simp only [Simplex.ptsList, h1, if_pos, List.mem_singleton] at hq
    have : s.ClosestPoint = s.v0.p := by simp [Simplex.ClosestPoint, h1]
    rw [this, hq]
  · intro h2
    rw [h1] at h2
    exact absurd h2 (by norm_num)

/-- evolveLine establishes evolveGood on a two-point simplex. -/
theorem evolveLine_good (s : Simplex) (h2 : s.count = 2) : evolveGood s s.evolveLine := by
  have hlv : s.liveVerts = [s.v0, s.v1] := by simp [Simplex.liveVerts, h2]
  have hpl : s.ptsList = [s.v0.p, s.v1.p] := by simp [Simplex.ptsList, h2]
  simp only [Simplex.evolveLine]
  by_cases hv : Dot s.v0.p.Neg (s.v1.p.Sub s.v0.p) ≤ 0
  · rw [if_pos hv]
    refine ⟨Or.inl rfl, ⟨s.v0, by simp [hlv], ⟨rfl, rfl, rfl, rfl, rfl⟩⟩, ?_, ?_, ?_, ?_⟩
    · intro hc
      simp at hc
    · have hcl : Simplex.ClosestPoint { s with count := 1, v0 := s.v0 } = s.v0.p := by
        simp [Simplex.ClosestPoint]
      have hpt : Simplex.ptsList { s with count := 1, v0 := s.v0 } = [s.v0.p] := by
        simp [Simplex.ptsList]
      rw [hcl, hpt]
      exact .base (by simp)
    · intro q hq
      rw [hpl] at hq
      have hcl : Simplex.ClosestPoint { s with count := 1, v0 := s.v0 } = s.v0.p := by
        simp [Simplex.ClosestPoint]
      rw [hcl]
      simp only [List.mem_cons, List.not_mem_nil, or_false] at hq
      rcases hq with rfl | rfl
      · exact le_refl _
      · simp only [Dot, Point.Neg, Point.Sub] at hv ⊢
        nlinarith
    · intro hc
      simp at hc
  · by_cases hu : Dot s.v1.p (s.v1.p.Sub s.v0.p) ≤ 0
    · rw [if_neg hv, if_pos hu]
      refine ⟨Or.inl rfl, ⟨s.v1, by simp [hlv], ⟨rfl, rfl, rfl, rfl, rfl⟩⟩, ?_, ?_, ?_, ?_⟩
      · intro hc
        simp at hc
      · have hcl : Simplex.ClosestPoint { s with count := 1, v0 := s.v1 } = s.v1.p := by
          simp [Simplex.ClosestPoint]
        have hpt : Simplex.ptsList { s with count := 1, v0 := s.v1 } = [s.v1.p] := by
          simp [Simplex.ptsList]
        rw [hcl, hpt]
        exact .base (by simp)
      · intro q hq
        rw [hpl] at hq
        have hcl : Simplex.ClosestPoint { s with count := 1, v0 := s.v1 } = s.v1.p := by
          simp [Simplex.ClosestPoint]
        rw [hcl]
        simp only [List.mem_cons, List.not_mem_nil, or_false] at hq
        rcases hq with rfl | rfl
        · simp only [Dot, Point.Sub] at hu ⊢
          nlinarith
        · exact le_refl _
      · intro hc
        simp at hc
    · rw [if_neg hv, if_neg hu]
      push_neg at hv hu
      have hl : 0 < (s.v1.p.Sub s.v0.p).LengthSquared := by
        simp only [Dot, Point.Sub, Point.LengthSquared] at hu ⊢
        nlinarith [sq_nonneg (s.v1.p.X * (s.v1.p.Y - s.v0.p.Y) - s.v1.p.Y * (s.v1.p.X - s.v0.p.X)),
          mul_pos hu hu, sq_nonneg s.v1.p.X, sq_nonneg s.v1.p.Y]
      refine ⟨Or.inr h2, ⟨s.v0, by simp [hlv], ⟨rfl, rfl, rfl, rfl, rfl⟩⟩,
        fun _ => ⟨s.v1, by simp [hlv], ⟨rfl, rfl, rfl, rfl, rfl⟩⟩, ?_, ?_, fun _ => ?_⟩
      · have hpt : Simplex.ptsList
            { s with v0 := { s.v0 with u := Dot s.v1.p (s.v1.p.Sub s.v0.p) / (s.v1.p.Sub s.v0.p).LengthSquared },
                     v1 := { s.v1 with u := Dot s.v0.p.Neg (s.v1.p.Sub s.v0.p) / (s.v1.p.Sub s.v0.p).LengthSquared } }
            = [s.v0.p, s.v1.p] := by
          simp [Simplex.ptsList, h2]
        have hcl : Simplex.ClosestPoint
            { s with v0 := { s.v0 with u := Dot s.v1.p (s.v1.p.Sub s.v0.p) / (s.v1.p.Sub s.v0.p).LengthSquared },
                     v1 := { s.v1 with u := Dot s.v0.p.Neg (s.v1.p.Sub s.v0.p) / (s.v1.p.Sub s.v0.p).LengthSquared } }
            = (s.v0.p.Mul (Dot s.v1.p (s.v1.p.Sub s.v0.p) / (s.v1.p.Sub s.v0.p).LengthSquared)).Add
                (s.v1.p.Mul (Dot s.v0.p.Neg (s.v1.p.Sub s.v0.p) / (s.v1.p.Sub s.v0.p).LengthSquared)) := by
          simp [Simplex.ClosestPoint, h2]
        rw [hpt, hcl]
        have hco : 1 - Dot s.v0.p.Neg (s.v1.p.Sub s.v0.p) / (s.v1.p.Sub s.v0.p).LengthSquared
            = Dot s.v1.p (s.v1.p.Sub s.v0.p) / (s.v1.p.Sub s.v0.p).LengthSquared := by
          rw [eq_div_iff hl.ne', sub_mul, div_mul_cancel₀ _ hl.ne']
          simp only [Dot, Point.Neg, Point.Sub, Point.LengthSquared]
          ring
        have hb0 : InConv [s.v0.p, s.v1.p] s.v0.p := InConv.base (by simp)
        have hb1 : InConv [s.v0.p, s.v1.p] s.v1.p := InConv.base (by simp)
        have hmix := InConv.mix
          (Dot s.v0.p.Neg (s.v1.p.Sub s.v0.p) / (s.v1.p.Sub s.v0.p).LengthSquared)
          (div_nonneg hv.le hl.le)
          (by
            rw [div_le_one hl]
            simp only [Dot, Point.Neg, Point.Sub, Point.LengthSquared] at hu ⊢
            nlinarith)
          hb0 hb1
        rw [hco] at hmix
        exact hmix
      · intro q hq
        rw [hpl] at hq
        have hcl : Simplex.ClosestPoint
            { s with v0 := { s.v0 with u := Dot s.v1.p (s.v1.p.Sub s.v0.p) / (s.v1.p.Sub s.v0.p).LengthSquared },
                     v1 := { s.v1 with u := Dot s.v0.p.Neg (s.v1.p.Sub s.v0.p) / (s.v1.p.Sub s.v0.p).LengthSquared } }
            = (s.v0.p.Mul (Dot s.v1.p (s.v1.p.Sub s.v0.p) / (s.v1.p.Sub s.v0.p).LengthSquared)).Add
                (s.v1.p.Mul (Dot s.v0.p.Neg (s.v1.p.Sub s.v0.p) / (s.v1.p.Sub s.v0.p).LengthSquared)) := by
          simp [Simplex.ClosestPoint, h2]
        rw [hcl]
        simp only [List.mem_cons, List.not_mem_nil, or_false] at hq
        have hlne := hl.ne'
        rcases hq with rfl | rfl
        · apply le_of_eq
          simp only [Dot, Point.Neg, Point.Sub, Point.LengthSquared, Point.Mul, Point.Add] at hlne ⊢
          field_simp
          ring
        · apply le_of_eq
          simp only [Dot, Point.Neg, Point.Sub, Point.LengthSquared, Point.Mul, Point.Add] at hlne ⊢
          field_simp
          ring
      · refine ⟨div_nonneg hu.le hl.le, div_nonneg hv.le hl.le, ?_, ?_, ?_, ?_⟩
        · rw [div_add_div_same, div_eq_one_iff_eq hl.ne']
          simp only [Dot, Point.Neg, Point.Sub, Point.LengthSquared]
          ring
        · have hcl : Simplex.ClosestPoint
              { s with v0 := { s.v0 with u := Dot s.v1.p (s.v1.p.Sub s.v0.p) / (s.v1.p.Sub s.v0.p).LengthSquared },
                       v1 := { s.v1 with u := Dot s.v0.p.Neg (s.v1.p.Sub s.v0.p) / (s.v1.p.Sub s.v0.p).LengthSquared } }
              = (s.v0.p.Mul (Dot s.v1.p (s.v1.p.Sub s.v0.p) / (s.v1.p.Sub s.v0.p).LengthSquared)).Add
                  (s.v1.p.Mul (Dot s.v0.p.Neg (s.v1.p.Sub s.v0.p) / (s.v1.p.Sub s.v0.p).LengthSquared)) := by
            simp [Simplex.ClosestPoint, h2]
          rw [hcl]
          have hlne := hl.ne'
          simp only [Dot, Point.Neg, Point.Sub, Point.LengthSquared, Point.Mul, Point.Add] at hlne ⊢
          field_simp
          ring
        · exact hu
        · exact hv

/-- ClosestPoint of a one-point simplex literal. -/
theorem closestPoint_mk_one (w x y : vertex) : (Simplex.mk 1 w x y).ClosestPoint = w.p := by
  simp [Simplex.ClosestPoint]

/-- ClosestPoint of a two-point simplex literal. -/
theorem closestPoint_mk_two (w x y : vertex) :
    (Simplex.mk 2 w x y).ClosestPoint = (w.p.Mul w.u).Add (x.p.Mul x.u) := by
  simp [Simplex.ClosestPoint]

/-- Live points of a one-point simplex literal. -/
theorem ptsList_mk_one (w x y : vertex) : (Simplex.mk 1 w x y).ptsList = [w.p] := by
  simp [Simplex.ptsList]

/-- Live points of a two-point simplex literal. -/
theorem ptsList_mk_two (w x y : vertex) : (Simplex.mk 2 w x y).ptsList = [w.p, x.p] := by
  simp [Simplex.ptsList]

/-- A strictly positive edge-region value forces a nondegenerate edge. -/
theorem edge_l_pos (P Q : Point) (hu : 0 < Dot Q (Q.Sub P)) :
    0 < (Q.Sub P).LengthSquared := by
  simp only [Dot, Point.Sub, Point.LengthSquared] at hu ⊢
  nlinarith [sq_nonneg (Q.X * (Q.Y - P.Y) - Q.Y * (Q.X - P.X)), mul_pos hu hu,
    sq_nonneg Q.X, sq_nonneg Q.Y]

/-- The two divided edge weights sum to one. -/
theorem edge_sum (P Q : Point) (hl : 0 < (Q.Sub P).LengthSquared) :
    Dot Q (Q.Sub P) / (Q.Sub P).LengthSquared
      + Dot P.Neg (Q.Sub P) / (Q.Sub P).LengthSquared = 1 := by
  rw [div_add_div_same, div_eq_one_iff_eq hl.ne']
  simp only [Dot, Point.Neg, Point.Sub, Point.LengthSquared]
  ring

/-- The weighted edge point is a convex combination of the endpoints. -/
theorem edge_inconv (P Q : Point) (hu : 0 < Dot Q (Q.Sub P)) (hv : 0 < Dot P.Neg (Q.Sub P)) :
    InConv [P, Q] ((P.Mul (Dot Q (Q.Sub P) / (Q.Sub P).LengthSquared)).Add
      (Q.Mul (Dot P.Neg (Q.Sub P) / (Q.Sub P).LengthSquared))) := by
  have hl := edge_l_pos P Q hu
  have hb0 : InConv [P, Q] P := InConv.base (by simp)
  have hb1 : InConv [P, Q] Q := InConv.base (by simp)
  have hco : 1 - Dot P.Neg (Q.Sub P) / (Q.Sub P).LengthSquared
      = Dot Q (Q.Sub P) / (Q.Sub P).LengthSquared := by
    have hs := edge_sum P Q hl
    linarith
  have hmix := InConv.mix (Dot P.Neg (Q.Sub P) / (Q.Sub P).LengthSquared)
    (div_nonneg hv.le hl.le)
    (by
      rw [div_le_one hl]
      simp only [Dot, Point.Neg, Point.Sub, Point.LengthSquared] at hu ⊢
      nlinarith)
    hb0 hb1
  rw [hco] at hmix
  exact hmix

/-- The weighted edge point is orthogonal to the edge. -/
theorem edge_perp (P Q : Point) (hl : 0 < (Q.Sub P).LengthSquared) :
    Dot ((P.Mul (Dot Q (Q.Sub P) / (Q.Sub P).LengthSquared)).Add
      (Q.Mul (Dot P.Neg (Q.Sub P) / (Q.Sub P).LengthSquared))) (Q.Sub P) = 0 := by
  have hlne := hl.ne'
  simp only [Dot, Point.Neg, Point.Sub, Point.LengthSquared, Point.Mul, Point.Add] at hlne ⊢
  field_simp
  ring

/-- The weighted edge point is certified against both endpoints. -/
theorem edge_cert_ends (P Q R : Point) (hl : 0 < (Q.Sub P).LengthSquared)
    (hR : R = P ∨ R = Q) :
    Dot ((P.Mul (Dot Q (Q.Sub P) / (Q.Sub P).LengthSquared)).Add
          (Q.Mul (Dot P.Neg (Q.Sub P) / (Q.Sub P).LengthSquared)))
        ((P.Mul (Dot Q (Q.Sub P) / (Q.Sub P).LengthSquared)).Add
          (Q.Mul (Dot P.Neg (Q.Sub P) / (Q.Sub P).LengthSquared)))
      ≤ Dot ((P.Mul (Dot Q (Q.Sub P) / (Q.Sub P).LengthSquared)).Add
          (Q.Mul (Dot P.Neg (Q.Sub P) / (Q.Sub P).LengthSquared))) R := by
  have hlne := hl.ne'
  rcases hR with rfl | rfl
  · apply le_of_eq
    simp only [Dot, Point.Neg, Point.Sub, Point.LengthSquared, Point.Mul, Point.Add] at hlne ⊢
    field_simp
    ring
  · apply le_of_eq
    simp only [Dot, Point.Neg, Point.Sub, Point.LengthSquared, Point.Mul, Point.Add] at hlne ⊢
    field_simp
    ring

/-- The weighted edge point is certified against the dropped triangle vertex
whenever that vertex's signed barycentric coordinate is nonpositive. -/
theorem edge_cert_drop (P Q R : Point) (hl : 0 < (Q.Sub P).LengthSquared)
    (hd : Cross P Q * Cross (Q.Sub P) (R.Sub P) ≤ 0) :
    Dot ((P.Mul (Dot Q (Q.Sub P) / (Q.Sub P).LengthSquared)).Add
          (Q.Mul (Dot P.Neg (Q.Sub P) / (Q.Sub P).LengthSquared)))
        ((P.Mul (Dot Q (Q.Sub P) / (Q.Sub P).LengthSquared)).Add
          (Q.Mul (Dot P.Neg (Q.Sub P) / (Q.Sub P).LengthSquared)))
      ≤ Dot ((P.Mul (Dot Q (Q.Sub P) / (Q.Sub P).LengthSquared)).Add
          (Q.Mul (Dot P.Neg (Q.Sub P) / (Q.Sub P).LengthSquared))) R := by
  have hlne := hl.ne'
  have h0 : 0 ≤ -(Cross P Q * Cross (Q.Sub P) (R.Sub P)) / (Q.Sub P).LengthSquared :=
    div_nonneg (neg_nonneg.mpr hd) hl.le
  have key : Dot ((P.Mul (Dot Q (Q.Sub P) / (Q.Sub P).LengthSquared)).Add
          (Q.Mul (Dot P.Neg (Q.Sub P) / (Q.Sub P).LengthSquared))) R
        - Dot ((P.Mul (Dot Q (Q.Sub P) / (Q.Sub P).LengthSquared)).Add
          (Q.Mul (Dot P.Neg (Q.Sub P) / (Q.Sub P).LengthSquared)))
        ((P.Mul (Dot Q (Q.Sub P) / (Q.Sub P).LengthSquared)).Add
          (Q.Mul (Dot P.Neg (Q.Sub P) / (Q.Sub P).LengthSquared)))
      = -(Cross P Q * Cross (Q.Sub P) (R.Sub P)) / (Q.Sub P).LengthSquared := by
    simp only [Dot, Cross, Point.Neg, Point.Sub, Point.LengthSquared, Point.Mul,
      Point.Add] at hlne ⊢
    field_simp
    ring
  linarith

/-- evolveTriangle establishes evolveGood on a three-point simplex whenever
its result is not the full triangle. -/
theorem evolveTriangle_good (s : Simplex) (h3 : s.count = 3)
    (hout : s.evolveTriangle.count ≠ 3) : evolveGood s s.evolveTriangle := by
  have hlv : s.liveVerts = [s.v0, s.v1, s.v2] := by simp [Simplex.liveVerts, h3]
  have hpl : s.ptsList = [s.v0.p, s.v1.p, s.v2.p] := by simp [Simplex.ptsList, h3]
  simp only [Simplex.evolveTriangle] at hout ⊢
  by_cases hn1 : Dot s.v0.p.Neg (s.v1.p.Sub s.v0.p) ≤ 0 ∧ Dot s.v0.p (s.v0.p.Sub s.v2.p) ≤ 0
  · rw [if_pos hn1]
    obtain ⟨hvAB, huCA⟩ := hn1
    refine ⟨Or.inl rfl, ⟨s.v0, by simp [hlv], ⟨rfl, rfl, rfl, rfl, rfl⟩⟩,
      fun hc => by simp at hc, ?_, ?_, fun hc => by simp at hc⟩
    · simp only [ptsList_mk_one, closestPoint_mk_one]
      exact InConv.base (by simp)
    · intro q hq
      rw [hpl] at hq
      simp only [closestPoint_mk_one]
      simp only [List.mem_cons, List.not_mem_nil, or_false] at hq
      rcases hq with rfl | rfl | rfl
      · exact le_refl _
      · simp only [Dot, Point.Neg, Point.Sub] at hvAB ⊢
        nlinarith
      · simp only [Dot, Point.Sub] at huCA ⊢
        nlinarith
  · rw [if_neg hn1] at hout ⊢
    by_cases hn2 : Dot s.v1.p (s.v1.p.Sub s.v0.p) ≤ 0 ∧ Dot s.v1.p.Neg (s.v2.p.Sub s.v1.p) ≤ 0
    · rw [if_pos hn2]
      obtain ⟨huAB, hvBC⟩ := hn2
      refine ⟨Or.inl rfl, ⟨s.v1, by simp [hlv], ⟨rfl, rfl, rfl, rfl, rfl⟩⟩,
        fun hc => by simp at hc, ?_, ?_, fun hc => by simp at hc⟩
      · simp only [ptsList_mk_one, closestPoint_mk_one]
        exact InConv.base (by simp)
      · intro q hq
        rw [hpl] at hq
        simp only [closestPoint_mk_one]
        simp only [List.mem_cons, List.not_mem_nil, or_false] at hq
        rcases hq with rfl | rfl | rfl
        · simp only [Dot, Point.Sub] at huAB ⊢
          nlinarith
        · exact le_refl _
        · simp only [Dot, Point.Neg, Point.Sub] at hvBC ⊢
          nlinarith
    · rw [if_neg hn2] at hout ⊢
      by_cases h3c : Dot s.v1.p (s.v1.p.Sub s.v0.p) > 0 ∧ Dot s.v0.p.Neg (s.v1.p.Sub s.v0.p) > 0
          ∧ Cross s.v0.p s.v1.p * Cross (s.v1.p.Sub s.v0.p) (s.v2.p.Sub s.v0.p) ≤ 0
      · rw [if_pos h3c]
        obtain ⟨huAB, hvAB, hwABC⟩ := h3c
        have hl := edge_l_pos s.v0.p s.v1.p huAB
        refine ⟨Or.inr rfl, ⟨s.v0, by simp [hlv], ⟨rfl, rfl, rfl, rfl, rfl⟩⟩,
          fun _ => ⟨s.v1, by simp [hlv], ⟨rfl, rfl, rfl, rfl, rfl⟩⟩, ?_, ?_, fun _ => ?_⟩
        · simp only [ptsList_mk_two, closestPoint_mk_two]
          exact edge_inconv s.v0.p s.v1.p huAB hvAB
        · intro q hq
          rw [hpl] at hq
          simp only [closestPoint_mk_two]
          simp only [List.mem_cons, List.not_mem_nil, or_false] at hq
          rcases hq with rfl | rfl | rfl
          · exact edge_cert_ends _ _ _ hl (Or.inl rfl)
          · exact edge_cert_ends _ _ _ hl (Or.inr rfl)
          · exact edge_cert_drop _ _ _ hl hwABC
        · simp only [closestPoint_mk_two]
          exact ⟨div_nonneg huAB.le hl.le, div_nonneg hvAB.le hl.le, edge_sum _ _ hl,
            edge_perp _ _ hl, huAB, hvAB⟩
      · rw [if_neg h3c] at hout ⊢
        by_cases h4c : Dot s.v2.p (s.v2.p.Sub s.v1.p) > 0 ∧ Dot s.v1.p.Neg (s.v2.p.Sub s.v1.p) > 0
            ∧ Cross s.v1.p s.v2.p * Cross (s.v1.p.Sub s.v0.p) (s.v2.p.Sub s.v0.p) ≤ 0
        · rw [if_pos h4c]
          obtain ⟨huBC, hvBC, huABC⟩ := h4c
          have hl := edge_l_pos s.v1.p s.v2.p huBC
          have hd : Cross s.v1.p s.v2.p * Cross (s.v2.p.Sub s.v1.p) (s.v0.p.Sub s.v1.p) ≤ 0 := by
            have hcyc : Cross (s.v2.p.Sub s.v1.p) (s.v0.p.Sub s.v1.p)
                = Cross (s.v1.p.Sub s.v0.p) (s.v2.p.Sub s.v0.p) := by
              simp only [Cross, Point.Sub]
              ring
            rw [hcyc]
            exact huABC
          refine ⟨Or.inr rfl, ⟨s.v1, by simp [hlv], ⟨rfl, rfl, rfl, rfl, rfl⟩⟩,
            fun _ => ⟨s.v2, by simp [hlv], ⟨rfl, rfl, rfl, rfl, rfl⟩⟩, ?_, ?_, fun _ => ?_⟩
          · simp only [ptsList_mk_two, closestPoint_mk_two]
            exact edge_inconv s.v1.p s.v2.p huBC hvBC
          · intro q hq
            rw [hpl] at hq
            simp only [closestPoint_mk_two]
            simp only [List.mem_cons, List.not_mem_nil, or_false] at hq
            rcases hq with rfl | rfl | rfl
            · exact edge_cert_drop _ _ _ hl hd
            · exact edge_cert_ends _ _ _ hl (Or.inl rfl)
            · exact edge_cert_ends _ _ _ hl (Or.inr rfl)
          · simp only [closestPoint_mk_two]
            exact ⟨div_nonneg huBC.le hl.le, div_nonneg hvBC.le hl.le, edge_sum _ _ hl,
              edge_perp _ _ hl, huBC, hvBC⟩
        · rw [if_neg h4c] at hout ⊢
          by_cases h5c : Dot s.v0.p (s.v0.p.Sub s.v2.p) > 0 ∧ Dot s.v2.p.Neg (s.v0.p.Sub s.v2.p) > 0
              ∧ Cross s.v2.p s.v0.p * Cross (s.v1.p.Sub s.v0.p) (s.v2.p.Sub s.v0.p) ≤ 0
          · rw [if_pos h5c]
            obtain ⟨huCA, hvCA, hvABC⟩ := h5c
            have hl := edge_l_pos s.v2.p s.v0.p huCA
            have hd : Cross s.v2.p s.v0.p * Cross (s.v0.p.Sub s.v2.p) (s.v1.p.Sub s.v2.p) ≤ 0 := by
              have hcyc : Cross (s.v0.p.Sub s.v2.p) (s.v1.p.Sub s.v2.p)
                  = Cross (s.v1.p.Sub s.v0.p) (s.v2.p.Sub s.v0.p) := by
                simp only [Cross, Point.Sub]
                ring
              rw [hcyc]
              exact hvABC
            refine ⟨Or.inr rfl, ⟨s.v2, by simp [hlv], ⟨rfl, rfl, rfl, rfl, rfl⟩⟩,
              fun _ => ⟨s.v0, by simp [hlv], ⟨rfl, rfl, rfl, rfl, rfl⟩⟩, ?_, ?_, fun _ => ?_⟩
            · simp only [ptsList_mk_two, closestPoint_mk_two]
              exact edge_inconv s.v2.p s.v0.p huCA hvCA
            · intro q hq
              rw [hpl] at hq
              simp only [closestPoint_mk_two]
              simp only [List.mem_cons, List.not_mem_nil, or_false] at hq
              rcases hq with rfl | rfl | rfl
              · exact edge_cert_ends _ _ _ hl (Or.inr rfl)
              · exact edge_cert_drop _ _ _ hl hd
              · exact edge_cert_ends _ _ _ hl (Or.inl rfl)
            · simp only [closestPoint_mk_two]
              exact ⟨div_nonneg huCA.le hl.le, div_nonneg hvCA.le hl.le, edge_sum _ _ hl,
                edge_perp _ _ hl, huCA, hvCA⟩
          · rw [if_neg h5c] at hout ⊢
            by_cases hC : Dot s.v2.p (s.v2.p.Sub s.v1.p) ≤ 0 ∧ Dot s.v2.p.Neg (s.v0.p.Sub s.v2.p) ≤ 0
            · rw [if_pos hC]
              obtain ⟨huBC, hvCA⟩ := hC
              refine ⟨Or.inl rfl, ⟨s.v2, by simp [hlv], ⟨rfl, rfl, rfl, rfl, rfl⟩⟩,
                fun hc => by simp at hc, ?_, ?_, fun hc => by simp at hc⟩
              · simp only [ptsList_mk_one, closestPoint_mk_one]
                exact InConv.base (by simp)
              · intro q hq
                rw [hpl] at hq
                simp only [closestPoint_mk_one]
                simp only [List.mem_cons, List.not_mem_nil, or_false] at hq
                rcases hq with rfl | rfl | rfl
                · simp only [Dot, Point.Neg, Point.Sub] at hvCA ⊢
                  nlinarith
                · simp only [Dot, Point.Sub] at huBC ⊢
                  nlinarith
                · exact le_refl _
            · rw [if_neg hC] at hout
              exact absurd h3 (by simpa using hout)

/-- evolve establishes evolveGood whenever its result is not a triangle. -/
theorem evolve_good (s : Simplex) (h1 : 1 ≤ s.count) (h2 : s.count ≤ 3)
    (hout : s.evolve.count ≠ 3) : evolveGood s s.evolve := by
  simp only [Simplex.evolve] at hout ⊢
  by_cases hc1 : s.count = 1
  · rw [if_pos hc1] at hout ⊢
    exact evolveGood_refl_one s hc1
  · rw [if_neg hc1] at hout ⊢
    by_cases hc2 : s.count = 2
    · rw [if_pos hc2] at hout ⊢
      exact evolveLine_good s hc2
    · have hc3 : s.count = 3 := by omega
      rw [if_neg hc2, if_pos hc3] at hout ⊢
      exact evolveTriangle_good s hc3 hout

/-- All live vertices of an invariant-satisfying simplex satisfy the vertex
invariant. -/
theorem liveVerts_ok {a : Shape} {xfa : Transform} {b : Shape} {xfb : Transform}
    {S : Simplex} (hok : simplexOK a xfa b xfb S) :
    ∀ w ∈ S.liveVerts, vertexOK a xfa b xfb w := by
  obtain ⟨hc1, hc3, h0, h1, h2⟩ := hok
  intro w hw
  simp only [Simplex.liveVerts] at hw
  split_ifs at hw with hA hB
  · simp only [List.mem_cons, List.not_mem_nil, or_false] at hw
    rw [hw]
    exact h0
  · simp only [List.mem_cons, List.not_mem_nil, or_false] at hw
    rcases hw with rfl | rfl
    · exact h0
    · exact h1 (by omega)
  · simp only [List.mem_cons, List.not_mem_nil, or_false] at hw
    rcases hw with rfl | rfl | rfl
    · exact h0
    · exact h1 (by omega)
    · exact h2 (by omega)

/-- getSupport returns a valid index on circles and nonempty polygons. -/
theorem getSupport_valid (sh : Shape) (hsh : validShape sh) (d : Point) :
    validIdx sh (sh.getSupport d) := by
  cases sh with
  | circle c =>
    exact ⟨le_refl 0, by simp [Shape.getSupport, Shape.idxBound]⟩
  | polygon p =>
    constructor
    · exact Int.ofNat_nonneg _
    · exact (polygon_getSupport_spec p d hsh).1
  | other f g => exact hsh.elim

/-- Appending a valid support vertex to a good evolved simplex yields an
invariant-satisfying simplex. -/
theorem append_ok {a : Shape} {xfa : Transform} {b : Shape} {xfb : Transform}
    {e : Simplex} {w : vertex}
    (he0 : vertexOK a xfa b xfb e.v0) (he1 : e.count = 2 → vertexOK a xfa b xfb e.v1)
    (hc : e.count = 1 ∨ e.count = 2) (hw : vertexOK a xfa b xfb w) :
    simplexOK a xfa b xfb (e.append w) := by
  rcases hc with h | h
  · simp only [Simplex.append, h]
    norm_num
    exact ⟨by simp, by simp, he0, fun _ => hw, fun hc2 => absurd hc2 (by simp)⟩
  · simp only [Simplex.append, h]
    norm_num
    exact ⟨by simp, by simp, he0, fun _ => he1 h, fun _ => hw⟩

/-- Elimination of a continuing GJK step: the evolved simplex is not a
triangle, the search direction is nonzero, the new support pair is fresh,
and the successor is the evolved simplex with the support vertex appended. -/
theorem gjkStep_next_elim (a : Shape) (xfa : Transform) (b : Shape) (xfb : Transform)
    (S S1 : Simplex) (h : gjkStep a xfa b xfb S = .next S1) :
    S.evolve.count ≠ 3 ∧ S.evolve.searchDirection.LengthSquared ≠ 0 ∧
    (a.getSupport (xfa.Rot.MulT S.evolve.searchDirection.Neg),
      b.getSupport (xfb.Rot.MulT S.evolve.searchDirection)) ∉ S.pairs ∧
    S1 = S.evolve.append
      ⟨a.getVertex (a.getSupport (xfa.Rot.MulT S.evolve.searchDirection.Neg)),
       b.getVertex (b.getSupport (xfb.Rot.MulT S.evolve.searchDirection)),
       (xfb.Mul (b.getVertex (b.getSupport (xfb.Rot.MulT S.evolve.searchDirection)))).Sub
         (xfa.Mul (a.getVertex (a.getSupport (xfa.Rot.MulT S.evolve.searchDirection.Neg)))),
       1, a.getSupport (xfa.Rot.MulT S.evolve.searchDirection.Neg),
       b.getSupport (xfb.Rot.MulT S.evolve.searchDirection)⟩ := by
  revert h
  simp only [gjkStep]
  split_ifs with h1 h2 h3
  · intro h
    cases h
  · intro h
    cases h
  · intro h
    cases h
  · intro h
    injection h with h
    exact ⟨h1, h2, h3, h.symm⟩

/-- A continuing GJK step preserves the simplex invariant. -/
theorem gjkStep_next_ok (a : Shape) (xfa : Transform) (b : Shape) (xfb : Transform)
    (ha : validShape a) (hb : validShape b) (S S1 : Simplex)
    (hok : simplexOK a xfa b xfb S) (h : gjkStep a xfa b xfb S = .next S1) :
    simplexOK a xfa b xfb S1 := by
  obtain ⟨h1, h2, h3, hS1⟩ := gjkStep_next_elim a xfa b xfb S S1 h
  obtain ⟨hcnt, hm0, hm1, hinc, hcert, hext⟩ := evolve_good S hok.1 hok.2.1 h1
  rw [hS1]
  apply append_ok
  · obtain ⟨w, hw, hsw⟩ := hm0
    exact vertexOK_of_sameVert hsw (liveVerts_ok hok w hw)
  · intro hc2
    obtain ⟨w, hw, hsw⟩ := hm1 hc2
    exact vertexOK_of_sameVert hsw (liveVerts_ok hok w hw)
  · exact hcnt
  · exact ⟨getSupport_valid a ha _, getSupport_valid b hb _, rfl⟩

/-- The search direction of a one-point simplex is the negated closest
point. -/
theorem searchDir_one (e : Simplex) (h : e.count = 1) :
    e.searchDirection = e.ClosestPoint.Neg := by
  simp [Simplex.searchDirection, Simplex.ClosestPoint, h]

/-- Core alignment fact: when the affine combination V of segment
endpoints A, B is orthogonal to the segment and nonzero, the perpendicular
search direction the code picks is a positive multiple of -V. -/
theorem perp_align (A B : Point) (u0 u1 : ℝ) (hsum : u0 + u1 = 1)
    (hperp : Dot ((A.Mul u0).Add (B.Mul u1)) (B.Sub A) = 0)
    (hvne : ((A.Mul u0).Add (B.Mul u1)).LengthSquared ≠ 0)
    (hdir : (if Cross (B.Sub A) A.Neg > 0 then CrossSP 1 (B.Sub A)
             else CrossPS (B.Sub A) 1).LengthSquared ≠ 0) :
    ∃ c : ℝ, 0 < c ∧
      (if Cross (B.Sub A) A.Neg > 0 then CrossSP 1 (B.Sub A) else CrossPS (B.Sub A) 1)
        = (((A.Mul u0).Add (B.Mul u1)).Neg).Mul c := by
  have hL0 : 0 ≤ ((A.Mul u0).Add (B.Mul u1)).LengthSquared := by
    simp only [Point.Mul, Point.Add, Point.LengthSquared]
    nlinarith [mul_self_nonneg (A.X * u0 + B.X * u1), mul_self_nonneg (A.Y * u0 + B.Y * u1)]
  have hL : 0 < ((A.Mul u0).Add (B.Mul u1)).LengthSquared := lt_of_le_of_ne hL0 (Ne.symm hvne)
  have hu0 : u0 = 1 - u1 := by linarith
  subst hu0
  have hperpE : (A.X * (1 - u1) + B.X * u1) * (B.X - A.X)
      + (A.Y * (1 - u1) + B.Y * u1) * (B.Y - A.Y) = 0 := by
    simpa only [Dot, Point.Mul, Point.Add, Point.Sub] using hperp
  have hLne : (A.X * (1 - u1) + B.X * u1) * (A.X * (1 - u1) + B.X * u1)
      + (A.Y * (1 - u1) + B.Y * u1) * (A.Y * (1 - u1) + B.Y * u1) ≠ 0 := by
    simpa only [Point.Mul, Point.Add, Point.LengthSquared] using hL.ne'
  by_cases hb : Cross (B.Sub A) A.Neg > 0
  · rw [if_pos hb] at hdir ⊢
    refine ⟨Cross (B.Sub A) A.Neg / ((A.Mul (1 - u1)).Add (B.Mul u1)).LengthSquared,
      div_pos hb hL, ?_⟩
    simp only [Cross, CrossSP, Point.Neg, Point.Sub, Point.Mul, Point.Add,
      Point.LengthSquared, Point.mk.injEq]
    constructor
    · rw [← mul_div_assoc, eq_div_iff hLne]
      linear_combination (-(A.Y * (1 - u1) + B.Y * u1)) * hperpE
    · rw [← mul_div_assoc, eq_div_iff hLne]
      linear_combination (A.X * (1 - u1) + B.X * u1) * hperpE
  · rw [if_neg hb] at hdir ⊢
    have hble : Cross (B.Sub A) A.Neg ≤ 0 := le_of_not_lt hb
    have hbne : Cross (B.Sub A) A.Neg ≠ 0 := by
      intro h0
      apply hdir
      have h0E : (B.X - A.X) * -A.Y - (B.Y - A.Y) * -A.X = 0 := by
        simpa only [Cross, Point.Sub, Point.Neg] using h0
      have hnx : B.X - A.X = 0 := by
        have hid : (B.X - A.X) * ((A.Mul (1 - u1)).Add (B.Mul u1)).LengthSquared = 0 := by
          simp only [Point.Mul, Point.Add, Point.LengthSquared]
          linear_combination (A.X * (1 - u1) + B.X * u1) * hperpE
            + (-(A.Y * (1 - u1) + B.Y * u1)) * h0E
        rcases mul_eq_zero.mp hid with hz | hz
        · exact hz
        · exact absurd hz hL.ne'
      have hny : B.Y - A.Y = 0 := by
        have hid : (B.Y - A.Y) * ((A.Mul (1 - u1)).Add (B.Mul u1)).LengthSquared = 0 := by
          simp only [Point.Mul, Point.Add, Point.LengthSquared]
          linear_combination (A.Y * (1 - u1) + B.Y * u1) * hperpE
            + (A.X * (1 - u1) + B.X * u1) * h0E
        rcases mul_eq_zero.mp hid with hz | hz
        · exact hz
        · exact absurd hz hL.ne'
      simp only [CrossPS, Point.Sub, Point.LengthSquared]
      rw [hnx, hny]
      ring
    have hcpos : 0 < -Cross (B.Sub A) A.Neg / ((A.Mul (1 - u1)).Add (B.Mul u1)).LengthSquared := by
      apply div_pos _ hL
      rcases lt_or_eq_of_le hble with hlt | heq
      · linarith
      · exact absurd heq hbne
    refine ⟨-Cross (B.Sub A) A.Neg / ((A.Mul (1 - u1)).Add (B.Mul u1)).LengthSquared,
      hcpos, ?_⟩
    simp only [Cross, CrossPS, Point.Neg, Point.Sub, Point.Mul, Point.Add,
      Point.LengthSquared, Point.mk.injEq]
    constructor
    · rw [← mul_div_assoc, eq_div_iff hLne]
      linear_combination (A.Y * (1 - u1) + B.Y * u1) * hperpE
    · rw [← mul_div_assoc, eq_div_iff hLne]
      linear_combination (-(A.X * (1 - u1) + B.X * u1)) * hperpE

/-- The search direction of a two-point simplex with orthogonal nonzero
closest point is a positive multiple of the negated closest point. -/
theorem searchDir_two (e : Simplex) (h : e.count = 2)
    (hsum : e.v0.u + e.v1.u = 1)
    (hperp : Dot e.ClosestPoint (e.v1.p.Sub e.v0.p) = 0)
    (hvne : e.ClosestPoint.LengthSquared ≠ 0)
    (hdir : e.searchDirection.LengthSquared ≠ 0) :
    ∃ c : ℝ, 0 < c ∧ e.searchDirection = (e.ClosestPoint.Neg).Mul c := by
  have hcl : e.ClosestPoint = (e.v0.p.Mul e.v0.u).Add (e.v1.p.Mul e.v1.u) := by
    simp [Simplex.ClosestPoint, h]
  have hsd : e.searchDirection = if Cross (e.v1.p.Sub e.v0.p) e.v0.p.Neg > 0
      then CrossSP 1 (e.v1.p.Sub e.v0.p) else CrossPS (e.v1.p.Sub e.v0.p) 1 := by
    simp [Simplex.searchDirection, h]
  rw [hcl] at hperp hvne
  rw [hsd] at hdir
  rw [hcl, hsd]
  exact perp_align e.v0.p e.v1.p e.v0.u e.v1.u hsum hperp hvne hdir

/-- LengthSquared is the self dot product. -/
theorem ls_eq_dot (p : Point) : p.LengthSquared = Dot p p := rfl

/-- Dot with a negated left argument. -/
theorem dot_neg_left (x y : Point) : Dot x.Neg y = -Dot x y := by
  simp only [Dot, Point.Neg]
  ring

/-- Negation commutes with scalar multiplication of points. -/
theorem point_neg_mul (x : Point) (k : ℝ) : (x.Mul k).Neg = x.Neg.Mul k := by
  simp only [Point.Mul, Point.Neg, Point.mk.injEq]
  constructor <;> ring

/-- Rescaling a scaled point. -/
theorem scale_transfer (x : Point) (c c1 : ℝ) (hc : c ≠ 0) :
    x.Mul c1 = (x.Mul c).Mul (c1 / c) := by
  simp only [Point.Mul, Point.mk.injEq]
  constructor
  · field_simp
    ring
  · field_simp
    ring

/-- The support index of a shape maximizes the dot with the direction over
all valid indices. -/
theorem shape_support_max (sh : Shape) (hsh : validShape sh) (d : Point) (i : Int)
    (hi : validIdx sh i) :
    Dot d (sh.getVertex i) ≤ Dot d (sh.getVertex (sh.getSupport d)) := by
  cases sh with
  | circle c => exact le_refl _
  | polygon p =>
    have hspec := polygon_getSupport_spec p d hsh
    simp only [Shape.getVertex]
    exact hspec.2 i.toNat hi.2
  | other f g => exact hsh.elim

/-- The support pair the GJK step computes maximizes the dot of the search
direction with the Minkowski point over all valid index pairs. -/
theorem support_pair_max (a : Shape) (xfa : Transform) (b : Shape) (xfb : Transform)
    (ha : validShape a) (hb : validShape b) (dir : Point) (ia ib : Int)
    (hia : validIdx a ia) (hib : validIdx b ib) :
    Dot dir (mkPt a xfa b xfb ia ib)
      ≤ Dot dir (mkPt a xfa b xfb (a.getSupport (xfa.Rot.MulT dir.Neg))
          (b.getSupport (xfb.Rot.MulT dir))) := by
  have h3 : ∀ x y : Point, Dot dir (x.Sub y) = Dot dir x - Dot dir y := by
    intro x y
    simp only [Dot, Point.Sub]
    ring
  have hsplit : ∀ (i j : Int), Dot dir (mkPt a xfa b xfb i j)
      = Dot (xfb.Rot.MulT dir) (b.getVertex j) + Dot dir xfb.Position
        - (Dot (xfa.Rot.MulT dir) (a.getVertex i) + Dot dir xfa.Position) := by
    intro i j
    simp only [mkPt]
    rw [h3, dot_transform, dot_transform]
  rw [hsplit, hsplit]
  have hB : Dot (xfb.Rot.MulT dir) (b.getVertex ib)
      ≤ Dot (xfb.Rot.MulT dir) (b.getVertex (b.getSupport (xfb.Rot.MulT dir))) :=
    shape_support_max b hb _ ib hib
  have hA : Dot (xfa.Rot.MulT dir) (a.getVertex (a.getSupport (xfa.Rot.MulT dir.Neg)))
      ≤ Dot (xfa.Rot.MulT dir) (a.getVertex ia) := by
    have hmax := shape_support_max a ha (xfa.Rot.MulT dir.Neg) ia hia
    nth_rewrite 1 2 [mulT_neg] at hmax
    rw [dot_neg_left, dot_neg_left] at hmax
    linarith
  linarith

/-- Supports are unchanged when the search direction is scaled by a
positive factor. -/
theorem support_pair_scale (a : Shape) (xfa : Transform) (b : Shape) (xfb : Transform)
    (ha : validShape a) (hb : validShape b) (dir : Point) (k : ℝ) (hk : 0 < k) :
    a.getSupport (xfa.Rot.MulT (dir.Mul k).Neg) = a.getSupport (xfa.Rot.MulT dir.Neg) ∧
    b.getSupport (xfb.Rot.MulT (dir.Mul k)) = b.getSupport (xfb.Rot.MulT dir) := by
  constructor
  · rw [point_neg_mul, mulT_smul]
    exact getSupport_scale a ha _ k hk
  · rw [mulT_smul]
    exact getSupport_scale b hb _ k hk

/-- The appended support vertex's index pair is among the successor's
recorded pairs. -/
theorem pairs_append_mem (e : Simplex) (w : vertex) (hc : e.count = 1 ∨ e.count = 2) :
    (w.indexA, w.indexB) ∈ (e.append w).pairs := by
  rcases hc with h | h
  · simp [Simplex.append, Simplex.pairs, h]
  · simp [Simplex.append, Simplex.pairs, h]

/-- The live points of an append are the old live points plus the new one. -/
theorem ptsList_append (e : Simplex) (w : vertex) (hc : e.count = 1 ∨ e.count = 2) :
    (e.append w).ptsList = e.ptsList ++ [w.p] := by
  rcases hc with h | h
  · simp [Simplex.append, Simplex.ptsList, h]
  · simp [Simplex.append, Simplex.ptsList, h]

/-- The live points of a good evolved simplex are among the entry's. -/
theorem good_pts_sub {s e : Simplex} (hg : evolveGood s e) :
    ∀ q ∈ e.ptsList, q ∈ s.ptsList := by
  obtain ⟨hcnt, hm0, hm1, _, _, _⟩ := hg
  intro q hq
  rcases hcnt with h | h
  · simp only [Simplex.ptsList, h] at hq
    norm_num at hq
    obtain ⟨w, hw, hsw⟩ := hm0
    rw [hq, hsw.2.2.1]
    exact liveVerts_p_mem s w hw
  · simp only [Simplex.ptsList, h] at hq
    norm_num at hq
    rcases hq with hq | hq
    · obtain ⟨w, hw, hsw⟩ := hm0
      rw [hq, hsw.2.2.1]
      exact liveVerts_p_mem s w hw
    · obtain ⟨w, hw, hsw⟩ := hm1 h
      rw [hq, hsw.2.2.1]
      exact liveVerts_p_mem s w hw

/-- LengthSquared is nonnegative. -/
theorem ls_nonneg (p : Point) : 0 ≤ p.LengthSquared := by
  simp only [Point.LengthSquared]
  nlinarith [mul_self_nonneg p.X, mul_self_nonneg p.Y]

/-- The count-2 form of the search direction. -/
theorem searchDir_formula_two (e : Simplex) (h : e.count = 2) :
    e.searchDirection = if Cross (e.v1.p.Sub e.v0.p) e.v0.p.Neg > 0
      then CrossSP 1 (e.v1.p.Sub e.v0.p) else CrossPS (e.v1.p.Sub e.v0.p) 1 := by
  simp [Simplex.searchDirection, h]

/-- A vanishing convex combination of two points with affine weights forces
the points to be antiparallel. -/
theorem cross_zero_of_comb_zero (A B : Point) (u0 u1 : ℝ) (hsum : u0 + u1 = 1)
    (h0 : (A.Mul u0).Add (B.Mul u1) = ⟨0, 0⟩) : Cross A B = 0 := by
  have h0X : A.X * u0 + B.X * u1 = 0 := by
    have h := congrArg Point.X h0
    simpa only [Point.Mul, Point.Add] using h
  have h0Y : A.Y * u0 + B.Y * u1 = 0 := by
    have h := congrArg Point.Y h0
    simpa only [Point.Mul, Point.Add] using h
  simp only [Cross]
  linear_combination (B.Y - A.Y) * h0X + (A.X - B.X) * h0Y
    - (A.X * B.Y - A.Y * B.X) * hsum

/-- When the evolved edge carries the origin in its interior (collinear
case), the triangle evolve of the appended simplex reproduces the same
edge: the degenerate triangle's AB region fires with zero area weight. -/
theorem plateau_step (E : Simplex) (supp : vertex) (hc : E.count = 2)
    (hu : 0 < Dot E.v1.p (E.v1.p.Sub E.v0.p))
    (hv : 0 < Dot E.v0.p.Neg (E.v1.p.Sub E.v0.p))
    (hcab : Cross E.v0.p E.v1.p = 0) :
    (E.append supp).evolve.count = 2 ∧
    (E.append supp).evolve.v0.p = E.v0.p ∧
    (E.append supp).evolve.v1.p = E.v1.p := by
  have happ : E.append supp = Simplex.mk 3 E.v0 E.v1 supp := by
    simp [Simplex.append, hc]
  rw [happ]
  have hev : (Simplex.mk 3 E.v0 E.v1 supp).evolve
      = (Simplex.mk 3 E.v0 E.v1 supp).evolveTriangle := by
    simp [Simplex.evolve]
  rw [hev]
  simp only [Simplex.evolveTriangle]
  have hn1 : ¬(Dot E.v0.p.Neg (E.v1.p.Sub E.v0.p) ≤ 0 ∧ Dot E.v0.p (E.v0.p.Sub supp.p) ≤ 0) :=
    fun hcon => absurd hcon.1 (not_le.mpr hv)
  have hn2 : ¬(Dot E.v1.p (E.v1.p.Sub E.v0.p) ≤ 0 ∧ Dot E.v1.p.Neg (supp.p.Sub E.v1.p) ≤ 0) :=
    fun hcon => absurd hcon.1 (not_le.mpr hu)
  have h3c : Dot E.v1.p (E.v1.p.Sub E.v0.p) > 0 ∧ Dot E.v0.p.Neg (E.v1.p.Sub E.v0.p) > 0
      ∧ Cross E.v0.p E.v1.p * Cross (E.v1.p.Sub E.v0.p) (supp.p.Sub E.v0.p) ≤ 0 :=
    ⟨hu, hv, by simp [hcab]⟩
  rw [if_neg hn1, if_neg hn2, if_pos h3c]
  exact ⟨rfl, rfl, rfl⟩

/-- One continuing GJK step either makes the next step terminate, or it
strictly decreases the squared distance of the simplex's closest point. -/
theorem gjk_dichotomy (a : Shape) (xfa : Transform) (b : Shape) (xfb : Transform)
    (ha : validShape a) (hb : validShape b) (S S1 : Simplex)
    (hok : simplexOK a xfa b xfb S)
    (h : gjkStep a xfa b xfb S = .next S1) :
    (∃ S2, gjkStep a xfa b xfb S1 = .done S2) ∨
      S1.evolve.ClosestPoint.LengthSquared < S.evolve.ClosestPoint.LengthSquared := by
  cases hstep : gjkStep a xfa b xfb S1 with
  | done s2 => exact Or.inl ⟨s2, rfl⟩
  | next s2 =>
    right
    obtain ⟨h1, h2, h3, hS1⟩ := gjkStep_next_elim a xfa b xfb S S1 h
    obtain ⟨h1x, h2x, h3x, hS2⟩ := gjkStep_next_elim a xfa b xfb S1 s2 hstep
    have hokS1 := gjkStep_next_ok a xfa b xfb ha hb S S1 hok h
    have hgood := evolve_good S hok.1 hok.2.1 h1
    have hgood1 := evolve_good S1 hokS1.1 hokS1.2.1 h1x
    obtain ⟨hcnt, hm0, hm1, hinc, hcert, hext⟩ := hgood
    obtain ⟨hcnt1, hm01, hm11, hinc1, hcert1, hext1⟩ := hgood1
    have hS1pts : S1.ptsList = S.evolve.ptsList ++ [(mkPt a xfa b xfb (a.getSupport (xfa.Rot.MulT S.evolve.searchDirection.Neg)) (b.getSupport (xfb.Rot.MulT S.evolve.searchDirection)))] := by
      rw [hS1, ptsList_append _ _ hcnt]
      rfl
    have hvS1 : InConv S1.ptsList S.evolve.ClosestPoint :=
      inConv_mono (fun q hq => hS1pts ▸ List.mem_append_left _ hq) hinc
    have hsptS1 : (mkPt a xfa b xfb (a.getSupport (xfa.Rot.MulT S.evolve.searchDirection.Neg)) (b.getSupport (xfb.Rot.MulT S.evolve.searchDirection))) ∈ S1.ptsList := by
      rw [hS1pts]
      exact List.mem_append_right _ (by simp)
    have hv1S1 : InConv S1.ptsList S1.evolve.ClosestPoint :=
      inConv_mono (good_pts_sub ⟨hcnt1, hm01, hm11, hinc1, hcert1, hext1⟩) hinc1
    by_cases hvz : (S.evolve.ClosestPoint).LengthSquared = 0
    · exfalso
      have hv0 : S.evolve.ClosestPoint = ⟨0, 0⟩ := point_lengthSquared_eq_zero hvz
      rcases hcnt with hc1 | hc2
      · rw [searchDir_one _ hc1, hv0] at h2
        exact h2 (by simp [Point.Neg, Point.LengthSquared])
      · obtain ⟨hw0, hw1, hsum, hperp, huu, hvv⟩ := hext hc2
        have hcl2 : S.evolve.ClosestPoint = (S.evolve.v0.p.Mul S.evolve.v0.u).Add (S.evolve.v1.p.Mul S.evolve.v1.u) := by
          simp [Simplex.ClosestPoint, hc2]
        have hcab := cross_zero_of_comb_zero S.evolve.v0.p S.evolve.v1.p _ _ hsum
          (by rw [← hcl2]; exact hv0)
        have hpl := plateau_step S.evolve (⟨a.getVertex (a.getSupport (xfa.Rot.MulT S.evolve.searchDirection.Neg)), b.getVertex (b.getSupport (xfb.Rot.MulT S.evolve.searchDirection)), (xfb.Mul (b.getVertex (b.getSupport (xfb.Rot.MulT S.evolve.searchDirection)))).Sub (xfa.Mul (a.getVertex (a.getSupport (xfa.Rot.MulT S.evolve.searchDirection.Neg)))), 1, (a.getSupport (xfa.Rot.MulT S.evolve.searchDirection.Neg)), (b.getSupport (xfb.Rot.MulT S.evolve.searchDirection))⟩ : vertex) hc2 huu hvv hcab
        rw [← hS1] at hpl
        obtain ⟨hc2x, hp0, hp1⟩ := hpl
        have hdir1 : S1.evolve.searchDirection = S.evolve.searchDirection := by
          rw [searchDir_formula_two _ hc2x, searchDir_formula_two _ hc2, hp0, hp1]
        have hpmem : (a.getSupport (xfa.Rot.MulT S1.evolve.searchDirection.Neg),
            b.getSupport (xfb.Rot.MulT S1.evolve.searchDirection)) ∈ S1.pairs := by
          rw [hdir1, hS1]
          exact pairs_append_mem _ _ (Or.inr hc2)
        exact h3x hpmem
    · have hdirc : ∃ c : ℝ, 0 < c ∧ S.evolve.searchDirection = ((S.evolve.ClosestPoint).Neg).Mul c := by
        rcases hcnt with hc1 | hc2
        · refine ⟨1, one_pos, ?_⟩
          rw [searchDir_one _ hc1]
          simp [Point.Mul]
        · obtain ⟨hw0, hw1, hsum, hperp, huu, hvv⟩ := hext hc2
          exact searchDir_two _ hc2 hsum hperp hvz h2
      obtain ⟨c, hcpos, hdir⟩ := hdirc
      by_cases hst : Dot S.evolve.ClosestPoint (mkPt a xfa b xfb (a.getSupport (xfa.Rot.MulT S.evolve.searchDirection.Neg)) (b.getSupport (xfb.Rot.MulT S.evolve.searchDirection))) < Dot S.evolve.ClosestPoint S.evolve.ClosestPoint
      · -- strict descent through a point on the segment from the closest
        -- point to the new support point
        have hDneg : (Dot S.evolve.ClosestPoint ((mkPt a xfa b xfb (a.getSupport (xfa.Rot.MulT S.evolve.searchDirection.Neg)) (b.getSupport (xfb.Rot.MulT S.evolve.searchDirection))).Sub S.evolve.ClosestPoint)) < 0 := by
          have hsub : Dot S.evolve.ClosestPoint ((mkPt a xfa b xfb (a.getSupport (xfa.Rot.MulT S.evolve.searchDirection.Neg)) (b.getSupport (xfb.Rot.MulT S.evolve.searchDirection))).Sub S.evolve.ClosestPoint) = Dot S.evolve.ClosestPoint (mkPt a xfa b xfb (a.getSupport (xfa.Rot.MulT S.evolve.searchDirection.Neg)) (b.getSupport (xfb.Rot.MulT S.evolve.searchDirection))) - Dot S.evolve.ClosestPoint S.evolve.ClosestPoint := by
            simp only [Dot, Point.Sub]
            ring
          rw [hsub]
          linarith
        have hMpos : 0 < (((mkPt a xfa b xfb (a.getSupport (xfa.Rot.MulT S.evolve.searchDirection.Neg)) (b.getSupport (xfb.Rot.MulT S.evolve.searchDirection))).Sub S.evolve.ClosestPoint).LengthSquared) := by
          rcases lt_or_eq_of_le (ls_nonneg ((mkPt a xfa b xfb (a.getSupport (xfa.Rot.MulT S.evolve.searchDirection.Neg)) (b.getSupport (xfb.Rot.MulT S.evolve.searchDirection))).Sub S.evolve.ClosestPoint)) with hlt | heq
          · exact hlt
          · exfalso
            have hz0 := point_lengthSquared_eq_zero heq.symm
            have hz : (Dot S.evolve.ClosestPoint ((mkPt a xfa b xfb (a.getSupport (xfa.Rot.MulT S.evolve.searchDirection.Neg)) (b.getSupport (xfb.Rot.MulT S.evolve.searchDirection))).Sub S.evolve.ClosestPoint)) = 0 := by
              rw [hz0]
              simp [Dot]
            linarith
        rw [ls_eq_dot, ls_eq_dot]
        rcases le_or_lt (((mkPt a xfa b xfb (a.getSupport (xfa.Rot.MulT S.evolve.searchDirection.Neg)) (b.getSupport (xfb.Rot.MulT S.evolve.searchDirection))).Sub S.evolve.ClosestPoint).LengthSquared) (-(Dot S.evolve.ClosestPoint ((mkPt a xfa b xfb (a.getSupport (xfa.Rot.MulT S.evolve.searchDirection.Neg)) (b.getSupport (xfb.Rot.MulT S.evolve.searchDirection))).Sub S.evolve.ClosestPoint))) with hMle | hMgt
        · have hw := InConv.mix 1 zero_le_one le_rfl hvS1 (InConv.base hsptS1)
          have hA := cert_min hcert1 hw
          have hlt : Dot ((S.evolve.ClosestPoint.Mul (1 - 1)).Add ((mkPt a xfa b xfb (a.getSupport (xfa.Rot.MulT S.evolve.searchDirection.Neg)) (b.getSupport (xfb.Rot.MulT S.evolve.searchDirection))).Mul 1))
              ((S.evolve.ClosestPoint.Mul (1 - 1)).Add ((mkPt a xfa b xfb (a.getSupport (xfa.Rot.MulT S.evolve.searchDirection.Neg)) (b.getSupport (xfb.Rot.MulT S.evolve.searchDirection))).Mul 1)) < Dot S.evolve.ClosestPoint S.evolve.ClosestPoint := by
            simp only [Dot, Point.Mul, Point.Add, Point.Sub, Point.LengthSquared] at hMle hDneg ⊢
            nlinarith
          linarith
        · have ht0 : 0 ≤ (-(Dot S.evolve.ClosestPoint ((mkPt a xfa b xfb (a.getSupport (xfa.Rot.MulT S.evolve.searchDirection.Neg)) (b.getSupport (xfb.Rot.MulT S.evolve.searchDirection))).Sub S.evolve.ClosestPoint)) / (((mkPt a xfa b xfb (a.getSupport (xfa.Rot.MulT S.evolve.searchDirection.Neg)) (b.getSupport (xfb.Rot.MulT S.evolve.searchDirection))).Sub S.evolve.ClosestPoint).LengthSquared)) := div_nonneg (by linarith) (le_of_lt hMpos)
          have ht1 : (-(Dot S.evolve.ClosestPoint ((mkPt a xfa b xfb (a.getSupport (xfa.Rot.MulT S.evolve.searchDirection.Neg)) (b.getSupport (xfb.Rot.MulT S.evolve.searchDirection))).Sub S.evolve.ClosestPoint)) / (((mkPt a xfa b xfb (a.getSupport (xfa.Rot.MulT S.evolve.searchDirection.Neg)) (b.getSupport (xfb.Rot.MulT S.evolve.searchDirection))).Sub S.evolve.ClosestPoint).LengthSquared)) ≤ 1 := by
            rw [div_le_one hMpos]
            linarith
          have hw := InConv.mix (-(Dot S.evolve.ClosestPoint ((mkPt a xfa b xfb (a.getSupport (xfa.Rot.MulT S.evolve.searchDirection.Neg)) (b.getSupport (xfb.Rot.MulT S.evolve.searchDirection))).Sub S.evolve.ClosestPoint)) / (((mkPt a xfa b xfb (a.getSupport (xfa.Rot.MulT S.evolve.searchDirection.Neg)) (b.getSupport (xfb.Rot.MulT S.evolve.searchDirection))).Sub S.evolve.ClosestPoint).LengthSquared)) ht0 ht1 hvS1 (InConv.base hsptS1)
          have hA := cert_min hcert1 hw
          have hMne := hMpos.ne'
          have key : Dot ((S.evolve.ClosestPoint.Mul (1 - (-(Dot S.evolve.ClosestPoint ((mkPt a xfa b xfb (a.getSupport (xfa.Rot.MulT S.evolve.searchDirection.Neg)) (b.getSupport (xfb.Rot.MulT S.evolve.searchDirection))).Sub S.evolve.ClosestPoint)) / (((mkPt a xfa b xfb (a.getSupport (xfa.Rot.MulT S.evolve.searchDirection.Neg)) (b.getSupport (xfb.Rot.MulT S.evolve.searchDirection))).Sub S.evolve.ClosestPoint).LengthSquared)))).Add ((mkPt a xfa b xfb (a.getSupport (xfa.Rot.MulT S.evolve.searchDirection.Neg)) (b.getSupport (xfb.Rot.MulT S.evolve.searchDirection))).Mul (-(Dot S.evolve.ClosestPoint ((mkPt a xfa b xfb (a.getSupport (xfa.Rot.MulT S.evolve.searchDirection.Neg)) (b.getSupport (xfb.Rot.MulT S.evolve.searchDirection))).Sub S.evolve.ClosestPoint)) / (((mkPt a xfa b xfb (a.getSupport (xfa.Rot.MulT S.evolve.searchDirection.Neg)) (b.getSupport (xfb.Rot.MulT S.evolve.searchDirection))).Sub S.evolve.ClosestPoint).LengthSquared))))
              ((S.evolve.ClosestPoint.Mul (1 - (-(Dot S.evolve.ClosestPoint ((mkPt a xfa b xfb (a.getSupport (xfa.Rot.MulT S.evolve.searchDirection.Neg)) (b.getSupport (xfb.Rot.MulT S.evolve.searchDirection))).Sub S.evolve.ClosestPoint)) / (((mkPt a xfa b xfb (a.getSupport (xfa.Rot.MulT S.evolve.searchDirection.Neg)) (b.getSupport (xfb.Rot.MulT S.evolve.searchDirection))).Sub S.evolve.ClosestPoint).LengthSquared)))).Add ((mkPt a xfa b xfb (a.getSupport (xfa.Rot.MulT S.evolve.searchDirection.Neg)) (b.getSupport (xfb.Rot.MulT S.evolve.searchDirection))).Mul (-(Dot S.evolve.ClosestPoint ((mkPt a xfa b xfb (a.getSupport (xfa.Rot.MulT S.evolve.searchDirection.Neg)) (b.getSupport (xfb.Rot.MulT S.evolve.searchDirection))).Sub S.evolve.ClosestPoint)) / (((mkPt a xfa b xfb (a.getSupport (xfa.Rot.MulT S.evolve.searchDirection.Neg)) (b.getSupport (xfb.Rot.MulT S.evolve.searchDirection))).Sub S.evolve.ClosestPoint).LengthSquared))))
              = Dot S.evolve.ClosestPoint S.evolve.ClosestPoint - (Dot S.evolve.ClosestPoint ((mkPt a xfa b xfb (a.getSupport (xfa.Rot.MulT S.evolve.searchDirection.Neg)) (b.getSupport (xfb.Rot.MulT S.evolve.searchDirection))).Sub S.evolve.ClosestPoint)) * (Dot S.evolve.ClosestPoint ((mkPt a xfa b xfb (a.getSupport (xfa.Rot.MulT S.evolve.searchDirection.Neg)) (b.getSupport (xfb.Rot.MulT S.evolve.searchDirection))).Sub S.evolve.ClosestPoint)) / (((mkPt a xfa b xfb (a.getSupport (xfa.Rot.MulT S.evolve.searchDirection.Neg)) (b.getSupport (xfb.Rot.MulT S.evolve.searchDirection))).Sub S.evolve.ClosestPoint).LengthSquared) := by
            simp only [Dot, Point.Mul, Point.Add, Point.Sub, Point.LengthSquared] at hMne ⊢
            field_simp
            ring
          have hq : 0 < (Dot S.evolve.ClosestPoint ((mkPt a xfa b xfb (a.getSupport (xfa.Rot.MulT S.evolve.searchDirection.Neg)) (b.getSupport (xfb.Rot.MulT S.evolve.searchDirection))).Sub S.evolve.ClosestPoint)) * (Dot S.evolve.ClosestPoint ((mkPt a xfa b xfb (a.getSupport (xfa.Rot.MulT S.evolve.searchDirection.Neg)) (b.getSupport (xfb.Rot.MulT S.evolve.searchDirection))).Sub S.evolve.ClosestPoint)) / (((mkPt a xfa b xfb (a.getSupport (xfa.Rot.MulT S.evolve.searchDirection.Neg)) (b.getSupport (xfb.Rot.MulT S.evolve.searchDirection))).Sub S.evolve.ClosestPoint).LengthSquared) :=
            div_pos (mul_pos_of_neg_of_neg hDneg hDneg) hMpos
          rw [key] at hA
          linarith
      · push_neg at hst
        have hcertS1 : IsCert S.evolve.ClosestPoint S1.ptsList := by
          intro q hq
          rw [hS1pts] at hq
          rcases List.mem_append.mp hq with hq | hq
          · exact hcert q (good_pts_sub ⟨hcnt, hm0, hm1, hinc, hcert, hext⟩ q hq)
          · simp only [List.mem_singleton] at hq
            rw [hq]
            exact hst
        have hle2 : Dot S1.evolve.ClosestPoint S1.evolve.ClosestPoint ≤ Dot S.evolve.ClosestPoint S.evolve.ClosestPoint := cert_min hcert1 hvS1
        have hv1v : S1.evolve.ClosestPoint = S.evolve.ClosestPoint := cert_unique hcertS1 hv1S1 hle2
        exfalso
        have hv1nz : (S1.evolve.ClosestPoint).LengthSquared ≠ 0 := by
          rw [hv1v]
          exact hvz
        have hdir1c : ∃ c1 : ℝ, 0 < c1 ∧ S1.evolve.searchDirection = ((S.evolve.ClosestPoint).Neg).Mul c1 := by
          rcases hcnt1 with hc1x | hc2x
          · refine ⟨1, one_pos, ?_⟩
            rw [searchDir_one _ hc1x, hv1v]
            simp [Point.Mul]
          · obtain ⟨hw0, hw1, hsum, hperp, huu, hvv⟩ := hext1 hc2x
            obtain ⟨c1, hc1pos, hd1⟩ := searchDir_two _ hc2x hsum hperp hv1nz h2x
            rw [hv1v] at hd1
            exact ⟨c1, hc1pos, hd1⟩
        obtain ⟨c1, hc1pos, hdir1⟩ := hdir1c
        have hscale : S1.evolve.searchDirection = (S.evolve.searchDirection).Mul (c1 / c) := by
          rw [hdir1, hdir]
          exact scale_transfer _ c c1 hcpos.ne'
        obtain ⟨hsa, hsb⟩ := support_pair_scale a xfa b xfb ha hb
          S.evolve.searchDirection (c1 / c) (div_pos hc1pos hcpos)
        have hpmem : (a.getSupport (xfa.Rot.MulT S1.evolve.searchDirection.Neg),
            b.getSupport (xfb.Rot.MulT S1.evolve.searchDirection)) ∈ S1.pairs := by
          rw [hscale, hsa, hsb, hS1]
          exact pairs_append_mem _ _ hcnt
        exact h3x hpmem

/-- The closest point of the evolved simplex depends only on the count and
the live Minkowski points. -/
theorem closestPoint_evolve_congr (S T : Simplex) (hc : S.count = T.count)
    (h1 : 1 ≤ S.count) (h3 : S.count ≤ 3)
    (hp0 : S.v0.p = T.v0.p) (hp1 : 2 ≤ S.count → S.v1.p = T.v1.p)
    (hp2 : 3 ≤ S.count → S.v2.p = T.v2.p) :
    S.evolve.ClosestPoint = T.evolve.ClosestPoint := by
  by_cases hc1 : S.count = 1
  · have hcT1 : T.count = 1 := by
      rw [← hc]
      exact hc1
    have e1 : S.evolve = S := by simp [Simplex.evolve, hc1]
    have e2 : T.evolve = T := by simp [Simplex.evolve, hcT1]
    rw [e1, e2]
    simp [Simplex.ClosestPoint, hc1, hcT1, hp0]
  · by_cases hc2 : S.count = 2
    · have hcT2 : T.count = 2 := by
        rw [← hc]
        exact hc2
      have hp1' := hp1 (by omega)
      have e1 : S.evolve = S.evolveLine := by simp [Simplex.evolve, hc2]
      have e2 : T.evolve = T.evolveLine := by simp [Simplex.evolve, hcT2]
      rw [e1, e2]
      simp only [Simplex.evolveLine]
      rw [hp0, hp1']
      split_ifs <;> simp [Simplex.ClosestPoint, hc2, hcT2, hp0, hp1']
    · have hc3 : S.count = 3 := by omega
      have hcT3 : T.count = 3 := by
        rw [← hc]
        exact hc3
      have hp1' := hp1 (by omega)
      have hp2' := hp2 (by omega)
      have e1 : S.evolve = S.evolveTriangle := by simp [Simplex.evolve, hc3]
      have e2 : T.evolve = T.evolveTriangle := by simp [Simplex.evolve, hcT3]
      rw [e1, e2]
      simp only [Simplex.evolveTriangle]
      rw [hp0, hp1', hp2']
      split_ifs <;> simp [Simplex.ClosestPoint, hc3, hcT3, hp0, hp1', hp2']

/-- Equal state keys of invariant-satisfying simplexes give equal evolved
closest points. -/
theorem stateKey_closest_congr (a : Shape) (xfa : Transform) (b : Shape) (xfb : Transform)
    (S T : Simplex) (hokS : simplexOK a xfa b xfb S) (hokT : simplexOK a xfa b xfb T)
    (hk : stateKey S = stateKey T) :
    S.evolve.ClosestPoint = T.evolve.ClosestPoint := by
  simp only [stateKey, Prod.mk.injEq] at hk
  obtain ⟨hc, h0, h1, h2⟩ := hk
  obtain ⟨hS1, hS3, hv0S, hv1S, hv2S⟩ := hokS
  obtain ⟨hT1, hT3, hv0T, hv1T, hv2T⟩ := hokT
  apply closestPoint_evolve_congr S T hc hS1 hS3
  · rw [hv0S.2.2, hv0T.2.2, h0.1, h0.2]
  · intro h2le
    have h2leT : 2 ≤ T.count := by
      rw [← hc]
      exact h2le
    rw [if_pos h2le, if_pos h2leT, Prod.mk.injEq] at h1
    rw [(hv1S h2le).2.2, (hv1T h2leT).2.2, h1.1, h1.2]
  · intro h3le
    have h3leT : 3 ≤ T.count := by
      rw [← hc]
      exact h3le
    rw [if_pos h3le, if_pos h3leT, Prod.mk.injEq] at h2
    rw [(hv2S h3le).2.2, (hv2T h3leT).2.2, h2.1, h2.2]

/-- A fuel-exhausted run keeps being fuel-exhausted along the trajectory. -/
theorem gjkRun_none_props (a : Shape) (xfa : Transform) (b : Shape) (xfb : Transform)
    (n : Nat) (S : Simplex) (h : gjkRun a xfa b xfb n S = none) :
    ∀ k, k ≤ n → gjkRun a xfa b xfb (n - k) ((stepF a xfa b xfb)^[k] S) = none := by
  intro k
  induction k with
  | zero =>
    intro _
    simpa using h
  | succ k ih =>
    intro hk
    have hik := ih (by omega)
    have hsplit : n - k = (n - (k + 1)) + 1 := by omega
    rw [hsplit] at hik
    rw [Function.iterate_succ_apply']
    revert hik
    simp only [gjkRun]
    cases hstep : gjkStep a xfa b xfb ((stepF a xfa b xfb)^[k] S) with
    | done s1 =>
      intro hik
      simp at hik
    | next s1 =>
      intro hik
      have hstepF : stepF a xfa b xfb ((stepF a xfa b xfb)^[k] S) = s1 := by
        simp [stepF, hstep]
      rw [hstepF]
      exact hik

/-- Before the fuel of an exhausted run runs out, every step continues. -/
theorem gjkRun_none_next (a : Shape) (xfa : Transform) (b : Shape) (xfb : Transform)
    (n : Nat) (S : Simplex) (h : gjkRun a xfa b xfb n S = none) (k : Nat) (hk : k < n) :
    gjkStep a xfa b xfb ((stepF a xfa b xfb)^[k] S)
      = .next ((stepF a xfa b xfb)^[k + 1] S) := by
  have hik := gjkRun_none_props a xfa b xfb n S h k (by omega)
  have hsplit : n - k = (n - (k + 1)) + 1 := by omega
  rw [hsplit] at hik
  rw [Function.iterate_succ_apply']
  revert hik
  simp only [gjkRun]
  cases hstep : gjkStep a xfa b xfb ((stepF a xfa b xfb)^[k] S) with
  | done s1 =>
    intro hik
    simp at hik
  | next s1 =>
    intro hik
    have hstepF : stepF a xfa b xfb ((stepF a xfa b xfb)^[k] S) = s1 := by
      simp [stepF, hstep]
    rw [hstepF]

/-- The simplex invariant holds along the trajectory of an exhausted run. -/
theorem iter_ok (a : Shape) (xfa : Transform) (b : Shape) (xfb : Transform)
    (ha : validShape a) (hb : validShape b) (n : Nat) (S : Simplex)
    (hok : simplexOK a xfa b xfb S) (h : gjkRun a xfa b xfb n S = none) :
    ∀ k, k ≤ n → simplexOK a xfa b xfb ((stepF a xfa b xfb)^[k] S) := by
  intro k
  induction k with
  | zero =>
    intro _
    simpa using hok
  | succ k ih =>
    intro hk
    exact gjkStep_next_ok a xfa b xfb ha hb _ _ (ih (by omega))
      (gjkRun_none_next a xfa b xfb n S h k (by omega))

/-- Along an exhausted run the squared closest-point distance strictly
decreases. -/
theorem iter_mu_strict (a : Shape) (xfa : Transform) (b : Shape) (xfb : Transform)
    (ha : validShape a) (hb : validShape b) (n : Nat) (S : Simplex)
    (hok : simplexOK a xfa b xfb S) (h : gjkRun a xfa b xfb n S = none) :
    ∀ k2 k1, k1 < k2 → k2 < n →
      ((stepF a xfa b xfb)^[k2] S).evolve.ClosestPoint.LengthSquared
        < ((stepF a xfa b xfb)^[k1] S).evolve.ClosestPoint.LengthSquared := by
  intro k2
  induction k2 with
  | zero =>
    intro k1 h1 _
    exact absurd h1 (Nat.not_lt_zero k1)
  | succ k2 ih =>
    intro k1 hlt hn
    have hstep2 := gjkRun_none_next a xfa b xfb n S h k2 (by omega)
    have hdich := gjk_dichotomy a xfa b xfb ha hb _ _
      (iter_ok a xfa b xfb ha hb n S hok h k2 (by omega)) hstep2
    rcases hdich with ⟨S2, hdone⟩ | hdesc
    · have hstep3 := gjkRun_none_next a xfa b xfb n S h (k2 + 1) (by omega)
      exact GJKStep.noConfusion (hdone.symm.trans hstep3)
    · rcases Nat.lt_succ_iff_lt_or_eq.mp hlt with hlt2 | heq
      · exact lt_trans hdesc (ih k1 hlt2 (by omega))
      · rw [heq]
        exact hdesc

/-- Valid shapes have at least one vertex index. -/
theorem idxBound_pos (sh : Shape) (hsh : validShape sh) : 1 ≤ sh.idxBound := by
  cases sh with
  | circle c => exact le_refl 1
  | polygon p => exact hsh
  | other f g => exact hsh.elim

/-- The GJK main loop cannot exhaust a fuel exceeding the number of
distinct simplex states: closest-point distances strictly decrease along
a non-terminating run while the finite state key must repeat. -/
theorem gjkRun_terminates (a : Shape) (xfa : Transform) (b : Shape) (xfb : Transform)
    (ha : validShape a) (hb : validShape b) (S : Simplex)
    (hok : simplexOK a xfa b xfb S) :
    gjkRun a xfa b xfb ((4 * (a.idxBound * b.idxBound) * (a.idxBound * b.idxBound) * (a.idxBound * b.idxBound)) + 2) S ≠ none := by
  intro h
  have hLA := idxBound_pos a ha
  have hLB := idxBound_pos b hb
  have hPP : ∀ ia ib : Int, validIdx a ia → validIdx b ib →
      ia ∈ Finset.Ico (0 : Int) ((a.idxBound : Int)) ∧
        ib ∈ Finset.Ico (0 : Int) ((b.idxBound : Int)) := by
    intro ia ib hia hib
    simp only [Finset.mem_Ico]
    have h2a := hia.2
    have h2b := hib.2
    refine ⟨⟨hia.1, ?_⟩, ⟨hib.1, ?_⟩⟩
    · omega
    · omega
  have h0v : validIdx a 0 ∧ validIdx b 0 := by
    constructor
    · exact ⟨le_refl 0, by simpa using hLA⟩
    · exact ⟨le_refl 0, by simpa using hLB⟩
  have hf : ∀ k ∈ Finset.range ((4 * (a.idxBound * b.idxBound) * (a.idxBound * b.idxBound) * (a.idxBound * b.idxBound)) + 1),
      stateKey ((stepF a xfa b xfb)^[k] S) ∈ (Finset.range 4 ×ˢ ((Finset.Ico (0 : Int) ((a.idxBound : Int)) ×ˢ Finset.Ico (0 : Int) ((b.idxBound : Int))) ×ˢ ((Finset.Ico (0 : Int) ((a.idxBound : Int)) ×ˢ Finset.Ico (0 : Int) ((b.idxBound : Int))) ×ˢ (Finset.Ico (0 : Int) ((a.idxBound : Int)) ×ˢ Finset.Ico (0 : Int) ((b.idxBound : Int)))))) := by
    intro k hk
    simp only [Finset.mem_range] at hk
    obtain ⟨h1k, h3k, hv0, hv1, hv2⟩ :=
      iter_ok a xfa b xfb ha hb ((4 * (a.idxBound * b.idxBound) * (a.idxBound * b.idxBound) * (a.idxBound * b.idxBound)) + 2) S hok h k (by omega)
    simp only [stateKey, Finset.mem_product]
    refine ⟨?_, hPP _ _ hv0.1 hv0.2.1, ?_, ?_⟩
    · simp only [Finset.mem_range]
      omega
    · split_ifs with h2k
      · exact hPP _ _ (hv1 h2k).1 (hv1 h2k).2.1
      · exact hPP 0 0 h0v.1 h0v.2
    · split_ifs with h3c
      · exact hPP _ _ (hv2 h3c).1 (hv2 h3c).2.1
      · exact hPP 0 0 h0v.1 h0v.2
  have hIcoA : (Finset.Ico (0 : Int) ((a.idxBound : Int))).card = a.idxBound := by
    rw [Int.card_Ico]
    omega
  have hIcoB : (Finset.Ico (0 : Int) ((b.idxBound : Int))).card = b.idxBound := by
    rw [Int.card_Ico]
    omega
  have hcard : ((Finset.range 4 ×ˢ ((Finset.Ico (0 : Int) ((a.idxBound : Int)) ×ˢ Finset.Ico (0 : Int) ((b.idxBound : Int))) ×ˢ ((Finset.Ico (0 : Int) ((a.idxBound : Int)) ×ˢ Finset.Ico (0 : Int) ((b.idxBound : Int))) ×ˢ (Finset.Ico (0 : Int) ((a.idxBound : Int)) ×ˢ Finset.Ico (0 : Int) ((b.idxBound : Int))))))).card < (Finset.range ((4 * (a.idxBound * b.idxBound) * (a.idxBound * b.idxBound) * (a.idxBound * b.idxBound)) + 1)).card := by
    simp only [Finset.card_product, Finset.card_range, hIcoA, hIcoB]
    have hr : 4 * (a.idxBound * b.idxBound * (a.idxBound * b.idxBound * (a.idxBound * b.idxBound)))
        = (4 * (a.idxBound * b.idxBound) * (a.idxBound * b.idxBound) * (a.idxBound * b.idxBound)) := by ring
    omega
  obtain ⟨k1, hk1, k2, hk2, hne, heq⟩ :=
    Finset.exists_ne_map_eq_of_card_lt_of_maps_to hcard hf
  simp only [Finset.mem_range] at hk1 hk2
  have hμ := stateKey_closest_congr a xfa b xfb _ _
    (iter_ok a xfa b xfb ha hb ((4 * (a.idxBound * b.idxBound) * (a.idxBound * b.idxBound) * (a.idxBound * b.idxBound)) + 2) S hok h k1 (by omega))
    (iter_ok a xfa b xfb ha hb ((4 * (a.idxBound * b.idxBound) * (a.idxBound * b.idxBound) * (a.idxBound * b.idxBound)) + 2) S hok h k2 (by omega)) heq
  have hl := congrArg Point.LengthSquared hμ
  rcases lt_or_gt_of_ne hne with hlt | hgt
  · have hs := iter_mu_strict a xfa b xfb ha hb ((4 * (a.idxBound * b.idxBound) * (a.idxBound * b.idxBound) * (a.idxBound * b.idxBound)) + 2) S hok h k2 k1 hlt (by omega)
    rw [hl] at hs
    exact lt_irrefl _ hs
  · have hs := iter_mu_strict a xfa b xfb ha hb ((4 * (a.idxBound * b.idxBound) * (a.idxBound * b.idxBound) * (a.idxBound * b.idxBound)) + 2) S hok h k1 k2 hgt (by omega)
    rw [← hl] at hs
    exact lt_irrefl _ hs

/-- C4: for every pair of shapes that is a circle or a polygon with at
least one vertex and every pair of transforms, the GJK main loop
terminates after finitely many iterations through its own exit conditions
(count reaching 3, zero search direction, or the duplicate-support check):
some finite fuel makes the fueled embedding of the unbounded loop return a
result, with no iteration cap involved. -/
theorem c4_gjk_terminates (a : Shape) (xfa : Transform) (b : Shape) (xfb : Transform)
    (ha : validShape a) (hb : validShape b) :
    ∃ n s', Simplex.zero.GJK n a xfa b xfb = some s' := by
  refine ⟨(4 * (a.idxBound * b.idxBound) * (a.idxBound * b.idxBound) * (a.idxBound * b.idxBound)) + 2, ?_⟩
  have hseed : Simplex.zero.GJK ((4 * (a.idxBound * b.idxBound) * (a.idxBound * b.idxBound) * (a.idxBound * b.idxBound)) + 2) a xfa b xfb
      = gjkRun a xfa b xfb ((4 * (a.idxBound * b.idxBound) * (a.idxBound * b.idxBound) * (a.idxBound * b.idxBound)) + 2) (Simplex.mk 1 ⟨a.getVertex 0, b.getVertex 0, (xfb.Mul (b.getVertex 0)).Sub (xfa.Mul (a.getVertex 0)), 1, 0, 0⟩ vertex.zero vertex.zero) := by
    simp [Simplex.GJK, Simplex.zero]
  have hokseed : simplexOK a xfa b xfb (Simplex.mk 1 ⟨a.getVertex 0, b.getVertex 0, (xfb.Mul (b.getVertex 0)).Sub (xfa.Mul (a.getVertex 0)), 1, 0, 0⟩ vertex.zero vertex.zero) := by
    refine ⟨by simp, by simp, ⟨⟨le_refl 0, ?_⟩, ⟨le_refl 0, ?_⟩, rfl⟩,
      fun hc => by simp at hc, fun hc => by simp at hc⟩
    · simpa using idxBound_pos a ha
    · simpa using idxBound_pos b hb
  rw [hseed]
  cases hrun : gjkRun a xfa b xfb ((4 * (a.idxBound * b.idxBound) * (a.idxBound * b.idxBound) * (a.idxBound * b.idxBound)) + 2) (Simplex.mk 1 ⟨a.getVertex 0, b.getVertex 0, (xfb.Mul (b.getVertex 0)).Sub (xfa.Mul (a.getVertex 0)), 1, 0, 0⟩ vertex.zero vertex.zero) with
  | none => exact absurd hrun (gjkRun_terminates a xfa b xfb ha hb _ hokseed)
  | some s1 => exact ⟨s1, rfl⟩

/-- Witness: GJK termination instantiated at two unit circles at the
origin under identity transforms. -/
theorem c4_gjk_terminates_witness :
    ∃ n s1, Simplex.zero.GJK n (Shape.circle ⟨⟨0, 0⟩, 1⟩) idTransform
      (Shape.circle ⟨⟨0, 0⟩, 1⟩) idTransform = some s1 :=
  c4_gjk_terminates (Shape.circle ⟨⟨0, 0⟩, 1⟩) idTransform (Shape.circle ⟨⟨0, 0⟩, 1⟩)
    idTransform True.intro True.intro

end collide
